import Mathlib

/-! Fastpass graph-algo benchmark driver and path-id encoding

A shallow embedding of `src/graph-algo/benchmark_graph_algo.c` (the batch
driver `run_experiment` and the start-up part of `main`) and of the constants
of `src/graph-algo/path_selection.h`.

Machine integers are natural numbers with explicit reduction modulo `2 ^ w`
where the width matters.  The admissible-traffic engine, the ring and the
memory pool are not part of these two files; the driver is embedded over an
arbitrary engine given as a record of operations, and what the driver needs
from it is stated as `engine_contract`.  `select_paths` and `paths_are_valid`
are only declared in `path_selection.h`; they are modelled from the
specification.
-/

namespace Fastpass

/-! ## Constants of `path_selection.h` -/

/-- `#define NUM_PATHS 4` -/
def NUM_PATHS : Nat := 4

/-- `#define PATH_MASK 0x3FFF` -/
def PATH_MASK : Nat := 0x3FFF

/-- `#define PATH_SHIFT 14` -/
def PATH_SHIFT : Nat := 14

/-! ## Constants of `benchmark_graph_algo.c` -/

/-- `#define ADMITTED_TRAFFIC_MEMPOOL_SIZE (51*1000)` -/
def ADMITTED_TRAFFIC_MEMPOOL_SIZE : Nat := 51 * 1000

/-- `#define ADMITTED_OUT_RING_LOG_SIZE 16` -/
def ADMITTED_OUT_RING_LOG_SIZE : Nat := 16

/-- `uint32_t warm_up_duration = ((10000 + 127) / 128) * 128;` in `main`. -/
def warm_up_duration : Nat := ((10000 + 127) / 128) * 128 % 2 ^ 32

/-- `uint32_t duration = warm_up_duration + ((50000 + 127) / 128) * 128;` in `main`. -/
def duration : Nat := (warm_up_duration + ((50000 + 127) / 128) * 128) % 2 ^ 32

/-- The constants of `algo_config.h` and of the batch headers that the driver
uses but that are not defined in the two embedded files; they are parameters
of the embedding. -/
structure algo_config where
  /-- `BATCH_SHIFT` -/
  BATCH_SHIFT : Nat
  /-- `BATCH_SIZE` -/
  BATCH_SIZE : Nat
  /-- `ADMITTED_PER_BATCH` -/
  ADMITTED_PER_BATCH : Nat
deriving DecidableEq

/-- The fields of `struct request_info` read by the driver. -/
structure request_info where
  src : Nat
  dst : Nat
  backlog : Nat
  timeslot : Nat
deriving DecidableEq

/-! ## The engine interface used by `run_experiment` -/

/-- The operations `run_experiment` calls on `struct admissible_state *status`,
over an engine state `σ` and batch object handles `Obj` (values of
`struct admitted_traffic *`).

* `fp_ring_dequeue` is `fp_ring_dequeue(get_q_admitted_out(status), &admitted)`:
  it yields `some obj` when it stores an object into `admitted`, and `none`
  when the ring is empty and `admitted` is left as it was;
* `fp_mempool_put` is `fp_mempool_put(get_admitted_traffic_mempool(status), obj)`;
* `size s obj` is the value of `obj->size` read in state `s`. -/
structure admissible_ops (σ Obj : Type) where
  add_backlog : σ → Nat → Nat → Nat → σ
  flush_backlog : σ → σ
  get_admissible_traffic : σ → σ
  handle_spent_demands : σ → σ
  fp_ring_dequeue : σ → Option Obj × σ
  fp_mempool_put : σ → Obj → σ
  size : σ → Obj → Nat

/-- One call made by the driver on the engine, the output ring or the pool.
A dequeue records what the ring returned: the object together with its `size`
field as read by the driver right after the call. -/
inductive Op (Obj : Type) where
  | add_backlog (r : request_info)
  | flush_backlog
  | get_admissible_traffic
  | handle_spent_demands
  | fp_ring_dequeue (got : Option (Obj × Nat))
  | fp_mempool_put (obj : Obj)
deriving DecidableEq

/-- The local variables of `run_experiment` that live across loop iterations,
with two ghost fields: `log` lists the calls made so far, each tagged with the
value of the loop variable `b` at the call, and `times_written` lists the
indices of `per_batch_times` written so far. -/
structure loop_state (σ Obj : Type) where
  status : σ
  /-- `struct admitted_traffic *admitted`; `none` while uninitialised. -/
  admitted : Option Obj
  num_admitted : Nat
  /-- The slice `[current_request, requests + num_requests)`. -/
  current_request : List request_info
  log : List (Nat × Op Obj)
  times_written : List Nat

/-- What `run_experiment` hands back: the return value, `*next_request` (as
the slice from that pointer to `requests + num_requests`), the engine state,
and the ghost fields. -/
structure experiment_result (σ Obj : Type) where
  num_admitted : Nat
  next_request : List request_info
  status : σ
  log : List (Nat × Op Obj)
  times_written : List Nat

section driver

variable {σ Obj : Type}

/-- The `while` loop of lines 70-75, on the slice from `current_request` to
`requests + num_requests`.  The test `current_request < requests + num_requests`
is the slice being non-empty.  (The source evaluates the timeslot comparison
first, also at the end of the array; the value read there cannot make the
conjunction true.) -/
def issue_requests (E : admissible_ops σ Obj) (cfg : algo_config) (b : Nat) :
    List request_info → σ → List (Nat × Op Obj) →
      List request_info × σ × List (Nat × Op Obj)
  | [], s, log => ([], s, log)
  | r :: rest, s, log =>
    if r.timeslot >>> cfg.BATCH_SHIFT = b % (65536 >>> cfg.BATCH_SHIFT) then
      issue_requests E cfg b rest (E.add_backlog s r.src r.dst r.backlog)
        (log ++ [(b, Op.add_backlog r)])
    else
      (r :: rest, s, log)

/-- The `for (i = 0; i < ADMITTED_PER_BATCH; i++)` loop of lines 82-89 with its
`uint8_t` counter.  `fuel` bounds the number of loop tests; `none` is returned
when the fuel runs out, and when `admitted->size` is read while `admitted` has
never been assigned. -/
def drain_loop (E : admissible_ops σ Obj) (cfg : algo_config) (b : Nat) :
    Nat → Nat → loop_state σ Obj → Option (loop_state σ Obj)
  | 0, _, _ => none
  | fuel + 1, i, st =>
    if i < cfg.ADMITTED_PER_BATCH then
      let deq := E.fp_ring_dequeue st.status
      match deq.1 <|> st.admitted with
      | none => none
      | some a =>
        let sz := E.size deq.2 a
        drain_loop E cfg b fuel ((i + 1) % 256)
          { status := E.fp_mempool_put deq.2 a
            admitted := some a
            num_admitted := (st.num_admitted + sz) % 2 ^ 32
            current_request := st.current_request
            log := st.log ++ [(b, Op.fp_ring_dequeue (deq.1.map fun o => (o, E.size deq.2 o))),
                              (b, Op.fp_mempool_put a)]
            times_written := st.times_written }
    else
      some st

/-- The body of the `for (b = ...)` loop, lines 69-95.  `none` is returned when
the modulus `65536 >> BATCH_SHIFT` is zero and when the drain loop fails. -/
def batch_body (E : admissible_ops σ Obj) (cfg : algo_config) (fuel start_b b : Nat)
    (st : loop_state σ Obj) : Option (loop_state σ Obj) :=
  if 65536 >>> cfg.BATCH_SHIFT = 0 then none
  else
    let issued := issue_requests E cfg b st.current_request st.status st.log
    let s1 := E.flush_backlog issued.2.1
    let s2 := E.get_admissible_traffic s1
    let s3 := E.handle_spent_demands s2
    match drain_loop E cfg b fuel 0
        { status := s3
          admitted := st.admitted
          num_admitted := st.num_admitted
          current_request := issued.1
          log := issued.2.2 ++ [(b, Op.flush_backlog), (b, Op.get_admissible_traffic),
                                (b, Op.handle_spent_demands)]
          times_written := st.times_written } with
    | none => none
    | some st1 => some { st1 with times_written := st1.times_written ++ [b - start_b] }

/-- The `for (b = start_time >> BATCH_SHIFT; b < end_time >> BATCH_SHIFT; b++)`
loop, as `n` iterations starting at `b`. -/
def batch_loop (E : admissible_ops σ Obj) (cfg : algo_config) (fuel start_b : Nat) :
    Nat → Nat → loop_state σ Obj → Option (loop_state σ Obj)
  | 0, _, st => some st
  | n + 1, b, st =>
    match batch_body E cfg fuel start_b b st with
    | none => none
    | some st1 => batch_loop E cfg fuel start_b n (b + 1) st1

/-- `run_experiment(requests, start_time, end_time, num_requests, status,
&next_request, per_batch_times)`.  `requests` is the slice
`requests[0 .. num_requests)` of a non-null array.  The cycle counter, the
assertion on the elapsed cycles and the values stored into `per_batch_times`
are not modelled, only the indices written.  `none` is returned when a 32-bit
shift by `BATCH_SHIFT` is undefined and when the loop fails (see `batch_body`,
`drain_loop`). -/
def run_experiment (E : admissible_ops σ Obj) (cfg : algo_config) (fuel : Nat)
    (requests : List request_info) (start_time end_time : Nat) (status : σ) :
    Option (experiment_result σ Obj) :=
  if 32 ≤ cfg.BATCH_SHIFT then none
  else
    let start_b := start_time >>> cfg.BATCH_SHIFT
    match batch_loop E cfg fuel start_b
        ((end_time >>> cfg.BATCH_SHIFT) - start_b) start_b
        { status := status
          admitted := none
          num_admitted := 0
          current_request := requests
          log := []
          times_written := [] } with
    | none => none
    | some st =>
      some { num_admitted := st.num_admitted
             next_request := st.current_request
             status := st.status
             log := st.log
             times_written := st.times_written }

end driver

/-! ## Reference descriptions of a run -/

section reference

variable {σ Obj : Type}

/-- The test of the `while` loop of `run_experiment` for request `r` in
iteration `b`. -/
def in_batch (cfg : algo_config) (b : Nat) (r : request_info) : Bool :=
  decide (r.timeslot >>> cfg.BATCH_SHIFT = b % (65536 >>> cfg.BATCH_SHIFT))

/-- The engine state after `add_backlog` has been called for each of `rs`. -/
def add_all (E : admissible_ops σ Obj) (s : σ) (rs : List request_info) : σ :=
  rs.foldl (fun s r => E.add_backlog s r.src r.dst r.backlog) s

/-- The calls that drain the batches `ds` in iteration `b`: for each batch one
dequeue that returns it, followed by one release of the same object. -/
def drain_ops (b : Nat) (ds : List (Obj × Nat)) : List (Nat × Op Obj) :=
  ds.flatMap fun d => [(b, Op.fp_ring_dequeue (some d)), (b, Op.fp_mempool_put d.1)]

/-- The calls of iteration `b` when it starts at the request slice `reqs` and
drains the batches `ds`. -/
def batch_ops (cfg : algo_config) (b : Nat) (reqs : List request_info)
    (ds : List (Obj × Nat)) : List (Nat × Op Obj) :=
  (reqs.takeWhile (in_batch cfg b)).map (fun r => (b, Op.add_backlog r)) ++
    [(b, Op.flush_backlog), (b, Op.get_admissible_traffic), (b, Op.handle_spent_demands)] ++
    drain_ops b ds

/-- The calls of consecutive iterations starting at `b`, one iteration per
element of `blocks`, each element being the batches drained in that
iteration. -/
def expected_log (cfg : algo_config) :
    Nat → List request_info → List (List (Obj × Nat)) → List (Nat × Op Obj)
  | _, _, [] => []
  | b, reqs, ds :: blocks =>
    batch_ops cfg b reqs ds ++
      expected_log cfg (b + 1) (reqs.dropWhile (in_batch cfg b)) blocks

/-- The request slice left after `n` iterations starting at `b`. -/
def remaining (cfg : algo_config) : Nat → Nat → List request_info → List request_info
  | 0, _, reqs => reqs
  | n + 1, b, reqs => remaining cfg n (b + 1) (reqs.dropWhile (in_batch cfg b))

/-- The 32-bit accumulation `num_admitted += size` over a list of batches. -/
def sum_sizes (acc : Nat) (ds : List (Obj × Nat)) : Nat :=
  ds.foldl (fun acc d => (acc + d.2) % 2 ^ 32) acc

/-- The requests passed to `add_backlog`, in call order. -/
def issued (log : List (Nat × Op Obj)) : List request_info :=
  log.filterMap fun e =>
    match e.2 with
    | Op.add_backlog r => some r
    | _ => none

/-- The batches returned by successful dequeues, in call order. -/
def dequeued (log : List (Nat × Op Obj)) : List (Obj × Nat) :=
  log.filterMap fun e =>
    match e.2 with
    | Op.fp_ring_dequeue (some d) => some d
    | _ => none

/-- The objects released to the pool, in call order. -/
def released (log : List (Nat × Op Obj)) : List Obj :=
  log.filterMap fun e =>
    match e.2 with
    | Op.fp_mempool_put o => some o
    | _ => none

/-- The number of dequeue calls, successful or not. -/
def dequeue_calls (log : List (Nat × Op Obj)) : Nat :=
  log.countP fun e =>
    match e.2 with
    | Op.fp_ring_dequeue _ => true
    | _ => false

/-- `replays E s log s1`: making the calls of `log` on the engine `E`, in order
and starting in state `s`, ends in state `s1`, and every dequeue of the log
records what `fp_ring_dequeue` returned at that point, paired with the `size`
field of the returned object as read in the state right after the call. -/
def replays (E : admissible_ops σ Obj) : σ → List (Nat × Op Obj) → σ → Prop
  | s, [], s1 => s1 = s
  | s, (_, Op.add_backlog r) :: log, s1 =>
    replays E (E.add_backlog s r.src r.dst r.backlog) log s1
  | s, (_, Op.flush_backlog) :: log, s1 => replays E (E.flush_backlog s) log s1
  | s, (_, Op.get_admissible_traffic) :: log, s1 =>
    replays E (E.get_admissible_traffic s) log s1
  | s, (_, Op.handle_spent_demands) :: log, s1 =>
    replays E (E.handle_spent_demands s) log s1
  | s, (_, Op.fp_ring_dequeue got) :: log, s1 =>
    got = (E.fp_ring_dequeue s).1.map (fun o => (o, E.size (E.fp_ring_dequeue s).2 o)) ∧
      replays E (E.fp_ring_dequeue s).2 log s1
  | s, (_, Op.fp_mempool_put o) :: log, s1 => replays E (E.fp_mempool_put s o) log s1

/-- Modelled from the spec: what the driver relies on from the absent engine,
output ring and pool (spec 4.2, 5 and 6), as a protocol over the engine states.
`waiting k s` says that `s` is a state the engine can be in with `k` batches of
the current batch cycle still to be drained from the admitted output ring.
`add_backlog` and `flush_backlog` are called while no batch waits and keep it
so; one `get_admissible_traffic` call makes `ADMITTED_PER_BATCH` batches wait;
`handle_spent_demands` leaves them waiting; and while a batch waits, a dequeue
returns an object, and releasing that object to the pool leaves one batch fewer
waiting. -/
structure engine_contract (E : admissible_ops σ Obj) (cfg : algo_config)
    (waiting : Nat → σ → Prop) : Prop where
  add_backlog : ∀ s a b c, waiting 0 s → waiting 0 (E.add_backlog s a b c)
  flush_backlog : ∀ s, waiting 0 s → waiting 0 (E.flush_backlog s)
  get_admissible_traffic :
    ∀ s, waiting 0 s → waiting cfg.ADMITTED_PER_BATCH (E.get_admissible_traffic s)
  handle_spent_demands : ∀ k s, waiting k s → waiting k (E.handle_spent_demands s)
  dequeue_and_put :
    ∀ k s, waiting (k + 1) s →
      ∃ o, (E.fp_ring_dequeue s).1 = some o ∧
        waiting k (E.fp_mempool_put (E.fp_ring_dequeue s).2 o)

end reference

/-! ## A small engine used for concrete runs -/

/-- State of the sample engine: backlog not yet admitted and the output ring. -/
structure sample_state where
  pending : Nat
  ring : List Nat
deriving DecidableEq

/-- A sample engine with an output ring of `2 ^ ADMITTED_OUT_RING_LOG_SIZE`
places.  A batch object is represented by its size.  Each
`get_admissible_traffic` call enqueues `per_batch` batches as far as the ring
has room, the first of which admits one packet when backlog is pending. -/
def sample_engine (per_batch : Nat) : admissible_ops sample_state Nat where
  add_backlog s _ _ backlog := { s with pending := s.pending + backlog }
  flush_backlog s := s
  get_admissible_traffic s :=
    { pending := s.pending - 1
      ring := (s.ring ++ (List.range per_batch).map fun i =>
        if i = 0 ∧ 0 < s.pending then 1 else 0).take (2 ^ ADMITTED_OUT_RING_LOG_SIZE) }
  handle_spent_demands s := s
  fp_ring_dequeue s :=
    match s.ring with
    | [] => (none, s)
    | o :: ring => (some o, { s with ring := ring })
  fp_mempool_put s _ := s
  size _ o := o

/-- The sample engine in its initial state. -/
def sample_status : sample_state := { pending := 0, ring := [] }

/-! ## Batch indices of requests -/

/-- The batch index `timeslot >> BATCH_SHIFT` of a request. -/
def batch_index (cfg : algo_config) (r : request_info) : Nat :=
  r.timeslot >>> cfg.BATCH_SHIFT

/-- Whether the batch index of `r` is below `c`. -/
def index_below (cfg : algo_config) (c : Nat) (r : request_info) : Bool :=
  decide (batch_index cfg r < c)

/-! ## Concrete inputs -/

/-- A request sequence sorted by timeslot that spans both calls of `main`: two
requests in the warm-up, three in the measured period (the last one in its
final timeslot), and one at `duration`, which is never issued. -/
def two_phase_requests : List request_info :=
  [ { src := 0, dst := 1, backlog := 1, timeslot := 0 },
    { src := 1, dst := 2, backlog := 2, timeslot := 10111 },
    { src := 2, dst := 3, backlog := 1, timeslot := 10112 },
    { src := 3, dst := 0, backlog := 4, timeslot := 30000 },
    { src := 0, dst := 2, backlog := 1, timeslot := 60159 },
    { src := 1, dst := 3, backlog := 1, timeslot := 60160 } ]

/-- A small configuration for concrete runs: batches of four timeslots, two
admitted batches per engine call. -/
def sample_config : algo_config := { BATCH_SHIFT := 2, BATCH_SIZE := 4, ADMITTED_PER_BATCH := 2 }

/-- A short request sequence sorted by timeslot. -/
def sample_requests : List request_info :=
  [ { src := 0, dst := 1, backlog := 1, timeslot := 0 },
    { src := 0, dst := 2, backlog := 1, timeslot := 0 },
    { src := 1, dst := 2, backlog := 3, timeslot := 5 },
    { src := 1, dst := 2, backlog := 3, timeslot := 13 } ]

/-! ## The start-up part of `main` -/

/-- `duration - warm_up_duration` in `uint32_t` arithmetic, as used in `main`. -/
def measured_duration : Nat := (duration + 2 ^ 32 - warm_up_duration) % 2 ^ 32

/-- `uint16_t num_batches = (duration - warm_up_duration) / BATCH_SIZE;` in `main`. -/
def num_batches (cfg : algo_config) : Nat := measured_duration / cfg.BATCH_SIZE % 2 ^ 16

/-- `enum benchmark_type` -/
inductive benchmark_type where
  | ADMISSIBLE
  | PATH_SELECTION_OVERSUBSCRIPTION
  | PATH_SELECTION_RACKS
deriving DecidableEq

/-- The queues, pools and engine state `main` creates at start-up. -/
inductive resource where
  | q_bin
  | q_head
  | q_admitted_out
  | q_spent
  | bin_mempool
  | admitted_traffic_mempool
  | q_new_demands (i : Nat)
  | q_ready_partitions (i : Nat)
  | admissible_state
deriving DecidableEq

/-- The observable steps of the start-up part of `main`. -/
inductive main_event where
  | print_usage
  /-- `printf("need at least %u elements in admitted_traffic ...")` -/
  | need_admitted_traffic (need got : Nat)
  /-- `printf("need at least %u elements in q_admitted ...")` -/
  | need_q_admitted (need got : Nat)
  /-- A call of `fp_ring_create`, `fp_mempool_create` or `create_admissible_state`. -/
  | create (r : resource)
  /-- `printf("Error initializing admissible_status!\n")` -/
  | error_initializing
deriving DecidableEq

/-- How the start-up part of `main` ends: `return code`, `exit(code)`, or
control reaching the experiments with everything created. -/
inductive main_outcome where
  | returned (code : Int)
  | exited (code : Int)
  | initialised (bt : benchmark_type)
deriving DecidableEq

/-- The `if (type == 0) ... else if ...` chain of lines 152-161. -/
def select_benchmark_type (type : Int) : Option benchmark_type :=
  if type = 0 then some benchmark_type.ADMISSIBLE
  else if type = 1 then some benchmark_type.PATH_SELECTION_OVERSUBSCRIPTION
  else if type = 2 then some benchmark_type.PATH_SELECTION_RACKS
  else none

/-- The loop of lines 239-244 creating the per-bin rings, as `n` iterations
starting at `i`; the flag tells whether every creation succeeded. -/
def create_bin_rings (created : resource → Bool) : Nat → Nat → List main_event × Bool
  | 0, _ => ([], true)
  | n + 1, i =>
    if created (resource.q_new_demands i) = false then
      ([main_event.create (resource.q_new_demands i)], false)
    else if created (resource.q_ready_partitions i) = false then
      ([main_event.create (resource.q_new_demands i),
        main_event.create (resource.q_ready_partitions i)], false)
    else
      let rest := create_bin_rings created n (i + 1)
      (main_event.create (resource.q_new_demands i) ::
        main_event.create (resource.q_ready_partitions i) :: rest.1, rest.2)

/-- Lines 231-261 of `main`: creation of the queues, pools and engine state with
the null checks.  `created r` tells whether the creation of `r` succeeds;
`num_bin_rings` is `NUM_BIN_RINGS`, which is taken to fit the `uint16_t` loop
counter. -/
def init_resources (num_bin_rings : Nat) (created : resource → Bool) (bt : benchmark_type) :
    List main_event × main_outcome :=
  let first := [resource.q_bin, resource.q_head, resource.q_admitted_out, resource.q_spent,
    resource.bin_mempool, resource.admitted_traffic_mempool]
  let rings := create_bin_rings created num_bin_rings 0
  let events := first.map main_event.create ++ rings.1
  if rings.2 = false then (events, main_outcome.exited (-1))
  else if first.all created = false then (events, main_outcome.exited (-1))
  else if created resource.admissible_state = false then
    (events ++ [main_event.create resource.admissible_state, main_event.error_initializing],
      main_outcome.exited (-1))
  else
    (events ++ [main_event.create resource.admissible_state], main_outcome.initialised bt)

/-- Lines 142-261 of `main`, with the sizing constants as parameters:
`mempool_size` for `ADMITTED_TRAFFIC_MEMPOOL_SIZE`, `ring_log_size` for
`ADMITTED_OUT_RING_LOG_SIZE`, and the two `uint32_t` durations.  `type` is the
integer read from `argv[1]`.  The comparisons of the sanity checks are made in
unsigned 32-bit arithmetic. -/
def main_startup (mempool_size ring_log_size warm_up dur : Nat) (num_bin_rings : Nat)
    (created : resource → Bool) (argc : Nat) (type : Int) : List main_event × main_outcome :=
  if argc ≠ 2 then ([main_event.print_usage], main_outcome.returned (-1))
  else
    match select_benchmark_type type with
    | none => ([main_event.print_usage], main_outcome.returned (-1))
    | some bt =>
      let measured := (dur + 2 ^ 32 - warm_up) % 2 ^ 32
      if mempool_size % 2 ^ 32 < measured then
        ([main_event.need_admitted_traffic measured mempool_size], main_outcome.exited (-1))
      else if (1 <<< ring_log_size) % 2 ^ 32 ≤ measured then
        ([main_event.need_q_admitted measured (1 <<< ring_log_size)], main_outcome.exited (-1))
      else init_resources num_bin_rings created bt

/-- The start-up part of `main` with the constants of the source. -/
def main (num_bin_rings : Nat) (created : resource → Bool) (argc : Nat) (type : Int) :
    List main_event × main_outcome :=
  main_startup ADMITTED_TRAFFIC_MEMPOOL_SIZE ADMITTED_OUT_RING_LOG_SIZE warm_up_duration
    duration num_bin_rings created argc type

/-- Whether an event is the creation of a queue, a pool or the engine state. -/
def main_event.is_create : main_event → Bool
  | main_event.create _ => true
  | _ => false

/-! ## Path selection and validation -/

/-- One entry of an admitted-traffic batch: source node and destination field.
The destination field holds the destination node in its low `PATH_SHIFT` bits
and, once paths are selected, the path id above them. -/
structure admitted_edge where
  src : Nat
  dst : Nat
deriving DecidableEq

/-- Modelled from the spec: the topology parameters the path selector and the
validator are configured with, which `path_selection.h` does not define: the
number of nodes per rack and the capacity of one inter-rack link. -/
structure topology where
  nodes_per_rack : Nat
  inter_rack_capacity : Nat
deriving DecidableEq

/-- Modelled from the spec: the rack of a node, for racks of `nodes_per_rack`
consecutive node ids. -/
def rack_of (topo : topology) (node : Nat) : Nat := node / topo.nodes_per_rack

/-- Modelled from the spec: whether an entry, with the path id stored in the
high-order bits of its destination field, crosses the inter-rack link of path
`p` from rack `s` to rack `d`.  Entries within one rack cross no link. -/
def crosses (topo : topology) (s d p : Nat) (e : admitted_edge) : Bool :=
  decide (rack_of topo e.src = s ∧ rack_of topo (e.dst &&& PATH_MASK) = d ∧ s ≠ d ∧
    e.dst >>> PATH_SHIFT = p)

/-- Modelled from the spec: the usage of the link of path `p` from rack `s` to
rack `d` implied by the path ids stored in a batch. -/
def link_usage (topo : topology) (admitted : List admitted_edge) (s d p : Nat) : Nat :=
  admitted.countP (crosses topo s d p)

/-- Modelled from the spec: `paths_are_valid(admitted, num_racks)`, which is
declared in `path_selection.h` and defined elsewhere.  It recomputes the usage
of every inter-rack link of the `num_racks` racks from the stored path ids and
tells whether each stays within the configured capacity. -/
def paths_are_valid (topo : topology) (admitted : List admitted_edge) (num_racks : Nat) :
    Bool :=
  (List.range num_racks).all fun s =>
    (List.range num_racks).all fun d =>
      (List.range NUM_PATHS).all fun p =>
        decide (link_usage topo admitted s d p ≤ topo.inter_rack_capacity)

/-- Modelled from the spec: the path with the least load, the lowest path id
winning ties. -/
def least_loaded (load : Nat → Nat) : Nat :=
  (List.range NUM_PATHS).foldl (fun best p => if load p < load best then p else best) 0

/-- The result of path selection: the batch with path ids written into the
destination fields, and whether some entry was given a path that was already
at capacity. -/
structure selection where
  admitted : List admitted_edge
  overbooked : Bool
deriving DecidableEq

/-- Modelled from the spec: the loop of the path selector over the entries in
batch order, with the per-link usage counters `usage`, the entries already
processed `done` and the overbooking flag.  An entry within one rack gets path
id 0 and is not counted.  Any other entry gets the least loaded path between
its racks; when that path is already at capacity the entry is overbooked onto
it.  The path id replaces the bits above `PATH_SHIFT` of the destination
field. -/
def select_paths_loop (topo : topology) :
    List admitted_edge → (Nat → Nat → Nat → Nat) → List admitted_edge → Bool → selection
  | [], _, done, overbooked => { admitted := done, overbooked := overbooked }
  | e :: rest, usage, done, overbooked =>
    let s := rack_of topo e.src
    let d := rack_of topo (e.dst &&& PATH_MASK)
    if s = d then
      select_paths_loop topo rest usage
        (done ++ [{ e with dst := (e.dst &&& PATH_MASK) ||| (0 <<< PATH_SHIFT) }]) overbooked
    else
      let p := least_loaded (usage s d)
      select_paths_loop topo rest
        (fun s1 d1 p1 => if s1 = s ∧ d1 = d ∧ p1 = p then usage s d p + 1 else usage s1 d1 p1)
        (done ++ [{ e with dst := (e.dst &&& PATH_MASK) ||| (p <<< PATH_SHIFT) }])
        (overbooked || decide (topo.inter_rack_capacity ≤ usage s d p))

/-- Modelled from the spec: `select_paths(admitted, num_racks)`, which is
declared in `path_selection.h` and defined elsewhere.  The link counters are
keyed by rack pair and path, so the rack count does not enter the selection. -/
def select_paths (topo : topology) (admitted : List admitted_edge) (num_racks : Nat) :
    selection :=
  select_paths_loop topo admitted (fun _ _ _ => 0) [] false

/-- A topology of two racks of four nodes with links of capacity 1. -/
def sample_topology : topology := { nodes_per_rack := 4, inter_rack_capacity := 1 }

/-- Two flows from rack 0 to rack 1 and one flow inside rack 0. -/
def sample_batch : List admitted_edge :=
  [ { src := 0, dst := 4 }, { src := 1, dst := 5 }, { src := 2, dst := 3 } ]

/-! ## The driver loops -/

section inner_loops
variable {σ Obj : Type}

/-- The `while` loop issues the longest prefix of requests that pass its test. -/
theorem issue_requests_eq (E : admissible_ops σ Obj) (cfg : algo_config) (b : Nat) :
    ∀ (reqs : List request_info) (s : σ) (log : List (Nat × Op Obj)),
      issue_requests E cfg b reqs s log =
        (reqs.dropWhile (in_batch cfg b), add_all E s (reqs.takeWhile (in_batch cfg b)),
          log ++ (reqs.takeWhile (in_batch cfg b)).map (fun r => (b, Op.add_backlog r))) := by
  intro reqs
  induction reqs with
  | nil => intro s log; simp [issue_requests, add_all]
  | cons r rest ih =>
    intro s log
    by_cases h : r.timeslot >>> cfg.BATCH_SHIFT = b % (65536 >>> cfg.BATCH_SHIFT)
    · simp [issue_requests, h, ih, in_batch, add_all, List.takeWhile_cons, List.dropWhile_cons]
    · simp [issue_requests, h, in_batch, add_all, List.takeWhile_cons, List.dropWhile_cons]

theorem waiting_add_all {E : admissible_ops σ Obj} {cfg : algo_config}
    {waiting : Nat → σ → Prop} (hE : engine_contract E cfg waiting) (rs : List request_info) :
    ∀ s, waiting 0 s → waiting 0 (add_all E s rs) := by
  induction rs with
  | nil => intro s hs; simpa [add_all] using hs
  | cons r rest ih =>
    intro s hs
    have h2 := ih (E.add_backlog s r.src r.dst r.backlog) (hE.add_backlog s _ _ _ hs)
    simpa only [add_all, List.foldl_cons] using h2

theorem replays_append (E : admissible_ops σ Obj) :
    ∀ (l1 l2 : List (Nat × Op Obj)) (s s1 s2 : σ),
      replays E s l1 s1 → replays E s1 l2 s2 → replays E s (l1 ++ l2) s2 := by
  intro l1
  induction l1 with
  | nil =>
    intro l2 s s1 s2 h1 h2
    simp only [replays] at h1
    subst h1
    simpa using h2
  | cons e l1 ih =>
    intro l2 s s1 s2 h1 h2
    obtain ⟨b, op⟩ := e
    cases op with
    | add_backlog r => exact ih l2 _ s1 s2 h1 h2
    | flush_backlog => exact ih l2 _ s1 s2 h1 h2
    | get_admissible_traffic => exact ih l2 _ s1 s2 h1 h2
    | handle_spent_demands => exact ih l2 _ s1 s2 h1 h2
    | fp_ring_dequeue got => exact ⟨h1.1, ih l2 _ s1 s2 h1.2 h2⟩
    | fp_mempool_put o => exact ih l2 _ s1 s2 h1 h2

theorem replays_add_all (E : admissible_ops σ Obj) (b : Nat) (rs : List request_info) :
    ∀ s, replays E s (rs.map fun r => ((b, Op.add_backlog r) : Nat × Op Obj))
      (add_all E s rs) := by
  induction rs with
  | nil => intro s; rfl
  | cons r rs ih => intro s; exact ih (E.add_backlog s r.src r.dst r.backlog)

theorem drain_ops_cons (b : Nat) (d : Obj × Nat) (ds : List (Obj × Nat)) :
    drain_ops b (d :: ds) =
      (b, Op.fp_ring_dequeue (some d)) :: (b, Op.fp_mempool_put d.1) :: drain_ops b ds := by
  simp [drain_ops]

/-- Under the engine contract, with the counter in range and enough fuel, the
drain loop ends after dequeuing and releasing `k` batches. -/
theorem drain_loop_spec {E : admissible_ops σ Obj} {cfg : algo_config}
    {waiting : Nat → σ → Prop} (hE : engine_contract E cfg waiting)
    (hA : cfg.ADMITTED_PER_BATCH ≤ 255) (b : Nat) :
    ∀ (k fuel i : Nat) (st : loop_state σ Obj),
      i + k = cfg.ADMITTED_PER_BATCH → k < fuel → waiting k st.status →
      ∃ (ds : List (Obj × Nat)) (st1 : loop_state σ Obj),
        ds.length = k ∧ drain_loop E cfg b fuel i st = some st1 ∧
        st1.log = st.log ++ drain_ops b ds ∧
        st1.num_admitted = sum_sizes st.num_admitted ds ∧
        st1.current_request = st.current_request ∧
        st1.times_written = st.times_written ∧
        waiting 0 st1.status ∧
        replays E st.status (drain_ops b ds) st1.status := by
  intro k
  induction k with
  | zero =>
    intro fuel i st hi hf hw
    obtain ⟨fuel, rfl⟩ : ∃ f, fuel = f + 1 := ⟨fuel - 1, by omega⟩
    refine ⟨[], st, rfl, ?_, ?_, rfl, rfl, rfl, hw, rfl⟩
    · have : ¬ i < cfg.ADMITTED_PER_BATCH := by omega
      simp [drain_loop, this]
    · simp [drain_ops]
  | succ k ih =>
    intro fuel i st hi hf hw
    obtain ⟨fuel, rfl⟩ : ∃ f, fuel = f + 1 := ⟨fuel - 1, by omega⟩
    have hlt : i < cfg.ADMITTED_PER_BATCH := by omega
    obtain ⟨o, ho, hw1⟩ := hE.dequeue_and_put k st.status hw
    have hmod : (i + 1) % 256 = i + 1 := Nat.mod_eq_of_lt (by omega)
    obtain ⟨ds, st1, hlen, hrun, hlog, hnum, hcur, htw, hw2, hrep⟩ :=
      ih fuel (i + 1)
        { status := E.fp_mempool_put (E.fp_ring_dequeue st.status).2 o
          admitted := some o
          num_admitted := (st.num_admitted + E.size (E.fp_ring_dequeue st.status).2 o) % 2 ^ 32
          current_request := st.current_request
          log := st.log ++ [(b, Op.fp_ring_dequeue
                              (some (o, E.size (E.fp_ring_dequeue st.status).2 o))),
                            (b, Op.fp_mempool_put o)]
          times_written := st.times_written }
        (by omega) (by omega) hw1
    refine ⟨(o, E.size (E.fp_ring_dequeue st.status).2 o) :: ds, st1, by simp [hlen], ?_, ?_, ?_,
      hcur, htw, hw2, ?_⟩
    · rw [← hrun]
      simp [drain_loop, hlt, ho, hmod]
    · rw [hlog]; simp [drain_ops]
    · rw [hnum]; simp [sum_sizes]
    · rw [drain_ops_cons]
      exact ⟨by rw [ho]; rfl, hrep⟩

/-- With `ADMITTED_PER_BATCH` above 255 the `uint8_t` counter never reaches it:
the drain loop does not end, whatever the fuel. -/
theorem drain_loop_no_exit (E : admissible_ops σ Obj) (cfg : algo_config)
    (hA : 256 ≤ cfg.ADMITTED_PER_BATCH) (b : Nat) :
    ∀ (fuel i : Nat) (st : loop_state σ Obj), i < 256 → drain_loop E cfg b fuel i st = none := by
  intro fuel
  induction fuel with
  | zero => intro i st _; rfl
  | succ fuel ih =>
    intro i st hi
    have hlt : i < cfg.ADMITTED_PER_BATCH := by omega
    simp only [drain_loop, hlt, if_true]
    cases (E.fp_ring_dequeue st.status).1 <|> st.admitted with
    | none => rfl
    | some a => exact ih _ _ (Nat.mod_lt _ (by norm_num))

end inner_loops

section batch_loops
variable {σ Obj : Type}

theorem modulus_pos {cfg : algo_config} (hS : cfg.BATCH_SHIFT ≤ 16) :
    65536 >>> cfg.BATCH_SHIFT ≠ 0 := by
  rw [Nat.shiftRight_eq_div_pow]
  have h1 : 2 ^ cfg.BATCH_SHIFT ≤ 2 ^ 16 := Nat.pow_le_pow_right (by norm_num) hS
  have h2 : 0 < 65536 / 2 ^ cfg.BATCH_SHIFT :=
    Nat.div_pos (by norm_num at h1 ⊢; exact h1) (Nat.pos_pow_of_pos _ (by norm_num))
  omega

/-- One iteration of the batch loop under the engine contract. -/
theorem batch_body_spec {E : admissible_ops σ Obj} {cfg : algo_config}
    {waiting : Nat → σ → Prop} (hE : engine_contract E cfg waiting)
    (hA : cfg.ADMITTED_PER_BATCH ≤ 255)
    (hS : cfg.BATCH_SHIFT ≤ 16) {fuel : Nat} (hF : cfg.ADMITTED_PER_BATCH < fuel)
    (start_b b : Nat) (st : loop_state σ Obj) (hW : waiting 0 st.status) :
    ∃ (ds : List (Obj × Nat)) (st1 : loop_state σ Obj),
      ds.length = cfg.ADMITTED_PER_BATCH ∧
      batch_body E cfg fuel start_b b st = some st1 ∧
      st1.log = st.log ++ batch_ops cfg b st.current_request ds ∧
      st1.num_admitted = sum_sizes st.num_admitted ds ∧
      st1.current_request = st.current_request.dropWhile (in_batch cfg b) ∧
      st1.times_written = st.times_written ++ [b - start_b] ∧
      waiting 0 st1.status ∧
      replays E st.status (batch_ops cfg b st.current_request ds) st1.status := by
  have hq : waiting cfg.ADMITTED_PER_BATCH
      (E.handle_spent_demands (E.get_admissible_traffic (E.flush_backlog
        (add_all E st.status (st.current_request.takeWhile (in_batch cfg b)))))) :=
    hE.handle_spent_demands _ _ (hE.get_admissible_traffic _ (hE.flush_backlog _
      (waiting_add_all hE _ _ hW)))
  obtain ⟨ds, st1, hlen, hrun, hlog, hnum, hcur, htw, hw1, hrep⟩ :=
    drain_loop_spec hE hA b cfg.ADMITTED_PER_BATCH fuel 0
      { status := E.handle_spent_demands (E.get_admissible_traffic (E.flush_backlog
          (add_all E st.status (st.current_request.takeWhile (in_batch cfg b)))))
        admitted := st.admitted
        num_admitted := st.num_admitted
        current_request := st.current_request.dropWhile (in_batch cfg b)
        log := (st.log ++ (st.current_request.takeWhile (in_batch cfg b)).map
                  (fun r => (b, Op.add_backlog r))) ++
                [(b, Op.flush_backlog), (b, Op.get_admissible_traffic),
                 (b, Op.handle_spent_demands)]
        times_written := st.times_written }
      (by omega) hF hq
  refine ⟨ds, { st1 with times_written := st1.times_written ++ [b - start_b] }, hlen, ?_, ?_,
    hnum, hcur, ?_, hw1, ?_⟩
  · simp only [batch_body, modulus_pos hS, if_false, issue_requests_eq, hrun]
  · simp only [hlog, batch_ops, List.append_assoc]
  · simp only [htw]
  · rw [batch_ops]
    refine replays_append E _ _ _ _ _ (replays_append E _ _ _ _ _
      (replays_add_all E b _ st.status) ?_) hrep
    simp only [replays]

/-- `n` iterations of the batch loop under the engine contract. -/
theorem batch_loop_spec {E : admissible_ops σ Obj} {cfg : algo_config}
    {waiting : Nat → σ → Prop} (hE : engine_contract E cfg waiting)
    (hA : cfg.ADMITTED_PER_BATCH ≤ 255)
    (hS : cfg.BATCH_SHIFT ≤ 16) {fuel : Nat} (hF : cfg.ADMITTED_PER_BATCH < fuel)
    (start_b : Nat) :
    ∀ (n b : Nat) (st : loop_state σ Obj), waiting 0 st.status →
      ∃ (blocks : List (List (Obj × Nat))) (st1 : loop_state σ Obj),
        blocks.length = n ∧ (∀ ds ∈ blocks, ds.length = cfg.ADMITTED_PER_BATCH) ∧
        batch_loop E cfg fuel start_b n b st = some st1 ∧
        st1.log = st.log ++ expected_log cfg b st.current_request blocks ∧
        st1.num_admitted = sum_sizes st.num_admitted blocks.flatten ∧
        st1.current_request = remaining cfg n b st.current_request ∧
        st1.times_written =
          st.times_written ++ (List.range n).map (fun k => b + k - start_b) ∧
        waiting 0 st1.status ∧
        replays E st.status (expected_log cfg b st.current_request blocks) st1.status := by
  intro n
  induction n with
  | zero =>
    intro b st hW
    exact ⟨[], st, rfl, by simp, rfl, by simp [expected_log], by simp [sum_sizes], rfl, by simp,
      hW, rfl⟩
  | succ n ih =>
    intro b st hW
    obtain ⟨ds, st1, hlen, hrun, hlog, hnum, hcur, htw, hW1, hrep1⟩ :=
      batch_body_spec hE hA hS hF start_b b st hW
    obtain ⟨blocks, st2, hlen2, hall2, hrun2, hlog2, hnum2, hcur2, htw2, hW2, hrep2⟩ :=
      ih (b + 1) st1 hW1
    refine ⟨ds :: blocks, st2, by simp [hlen2], ?_, ?_, ?_, ?_, ?_, ?_, hW2, ?_⟩
    rotate_right
    · rw [expected_log]
      rw [hcur] at hrep2
      exact replays_append E _ _ _ _ _ hrep1 hrep2
    · intro d hd
      rcases List.mem_cons.mp hd with h | h
      · rw [h]; exact hlen
      · exact hall2 d h
    · simp only [batch_loop, hrun, hrun2]
    · rw [hlog2, hlog, hcur]; simp only [expected_log, List.append_assoc]
    · rw [hnum2, hnum]; simp [sum_sizes]
    · rw [hcur2, hcur]; rfl
    · rw [htw2, htw, List.range_succ_eq_map]
      simp only [List.map_cons, List.map_map, List.append_assoc, List.singleton_append,
        Nat.add_zero]
      congr 2
      apply List.map_congr_left
      intro k _
      simp only [Function.comp]
      congr 1
      omega

/-- Under the engine contract `run_experiment` returns, and its log, return
value, `*next_request` and written indices are those of the reference
description. -/
theorem run_experiment_spec {E : admissible_ops σ Obj} {cfg : algo_config}
    {waiting : Nat → σ → Prop} (hE : engine_contract E cfg waiting)
    (hA : cfg.ADMITTED_PER_BATCH ≤ 255)
    (hS : cfg.BATCH_SHIFT ≤ 16) {fuel : Nat} (hF : cfg.ADMITTED_PER_BATCH < fuel)
    (requests : List request_info) (start_time end_time : Nat) (status : σ)
    (hW : waiting 0 status) :
    ∃ (blocks : List (List (Obj × Nat))) (r : experiment_result σ Obj),
      blocks.length = end_time >>> cfg.BATCH_SHIFT - start_time >>> cfg.BATCH_SHIFT ∧
      (∀ ds ∈ blocks, ds.length = cfg.ADMITTED_PER_BATCH) ∧
      run_experiment E cfg fuel requests start_time end_time status = some r ∧
      r.log = expected_log cfg (start_time >>> cfg.BATCH_SHIFT) requests blocks ∧
      r.num_admitted = sum_sizes 0 blocks.flatten ∧
      r.next_request =
        remaining cfg (end_time >>> cfg.BATCH_SHIFT - start_time >>> cfg.BATCH_SHIFT)
          (start_time >>> cfg.BATCH_SHIFT) requests ∧
      r.times_written =
        List.range (end_time >>> cfg.BATCH_SHIFT - start_time >>> cfg.BATCH_SHIFT) ∧
      waiting 0 r.status ∧
      replays E status r.log r.status := by
  obtain ⟨blocks, st1, hlen, hall, hrun, hlog, hnum, hcur, htw, hW1, hrep⟩ :=
    batch_loop_spec hE hA hS hF (start_time >>> cfg.BATCH_SHIFT)
      (end_time >>> cfg.BATCH_SHIFT - start_time >>> cfg.BATCH_SHIFT)
      (start_time >>> cfg.BATCH_SHIFT)
      { status := status, admitted := none, num_admitted := 0, current_request := requests,
        log := [], times_written := [] } hW
  refine ⟨blocks, ⟨st1.num_admitted, st1.current_request, st1.status, st1.log,
    st1.times_written⟩, hlen, hall, ?_, ?_, ?_, ?_, ?_, hW1, ?_⟩
  rotate_right
  · have hl : st1.log = expected_log cfg (start_time >>> cfg.BATCH_SHIFT) requests blocks := by
      simpa using hlog
    simpa only [hl] using hrep
  · have : ¬ 32 ≤ cfg.BATCH_SHIFT := by omega
    simp only [run_experiment, this, if_false, hrun]
  · simpa using hlog
  · simpa using hnum
  · simpa using hcur
  · simp only [htw, List.nil_append]
    conv_rhs => rw [← List.map_id (List.range _)]
    apply List.map_congr_left
    intro k _
    simp

end batch_loops

/-! ## Projections of the call log -/

section log_projections
variable {σ Obj : Type}

theorem dequeued_append (l1 l2 : List (Nat × Op Obj)) :
    dequeued (l1 ++ l2) = dequeued l1 ++ dequeued l2 := by
  simp [dequeued, List.filterMap_append]

theorem released_append (l1 l2 : List (Nat × Op Obj)) :
    released (l1 ++ l2) = released l1 ++ released l2 := by
  simp [released, List.filterMap_append]

theorem issued_append (l1 l2 : List (Nat × Op Obj)) :
    issued (l1 ++ l2) = issued l1 ++ issued l2 := by
  simp [issued, List.filterMap_append]

theorem dequeue_calls_append (l1 l2 : List (Nat × Op Obj)) :
    dequeue_calls (l1 ++ l2) = dequeue_calls l1 + dequeue_calls l2 := by
  simp [dequeue_calls, List.countP_append]

theorem dequeued_drain_ops (b : Nat) (ds : List (Obj × Nat)) :
    dequeued (drain_ops b ds) = ds := by
  induction ds with
  | nil => rfl
  | cons d ds ih =>
    rw [drain_ops_cons]
    simp only [dequeued, List.filterMap_cons] at ih ⊢
    rw [ih]

theorem released_drain_ops (b : Nat) (ds : List (Obj × Nat)) :
    released (drain_ops b ds) = ds.map Prod.fst := by
  induction ds with
  | nil => rfl
  | cons d ds ih =>
    rw [drain_ops_cons]
    simp only [released, List.filterMap_cons, List.map_cons] at ih ⊢
    rw [ih]

theorem issued_drain_ops (b : Nat) (ds : List (Obj × Nat)) :
    issued (drain_ops b ds) = [] := by
  induction ds with
  | nil => rfl
  | cons d ds ih =>
    rw [drain_ops_cons]
    simp only [issued, List.filterMap_cons] at ih ⊢
    rw [ih]

theorem dequeue_calls_drain_ops (b : Nat) (ds : List (Obj × Nat)) :
    dequeue_calls (drain_ops b ds) = ds.length := by
  induction ds with
  | nil => rfl
  | cons d ds ih =>
    rw [drain_ops_cons]
    simp only [dequeue_calls] at ih ⊢
    simp [List.countP_cons, ih]

theorem dequeued_map_add (b : Nat) (rs : List request_info) :
    dequeued (rs.map fun r => ((b, Op.add_backlog r) : Nat × Op Obj)) = [] := by
  induction rs with
  | nil => rfl
  | cons r rs ih => simp only [dequeued, List.map_cons, List.filterMap_cons] at ih ⊢; rw [ih]

theorem released_map_add (b : Nat) (rs : List request_info) :
    released (rs.map fun r => ((b, Op.add_backlog r) : Nat × Op Obj)) = [] := by
  induction rs with
  | nil => rfl
  | cons r rs ih => simp only [released, List.map_cons, List.filterMap_cons] at ih ⊢; rw [ih]

theorem issued_map_add (b : Nat) (rs : List request_info) :
    issued (rs.map fun r => ((b, Op.add_backlog r) : Nat × Op Obj)) = rs := by
  induction rs with
  | nil => rfl
  | cons r rs ih => simp only [issued, List.map_cons, List.filterMap_cons] at ih ⊢; rw [ih]

theorem dequeue_calls_map_add (b : Nat) (rs : List request_info) :
    dequeue_calls (rs.map fun r => ((b, Op.add_backlog r) : Nat × Op Obj)) = 0 := by
  induction rs with
  | nil => rfl
  | cons r rs ih =>
    simp only [dequeue_calls] at ih ⊢
    simp [List.countP_cons, ih]

theorem dequeued_batch_ops (cfg : algo_config) (b : Nat) (reqs : List request_info)
    (ds : List (Obj × Nat)) : dequeued (batch_ops cfg b reqs ds) = ds := by
  rw [batch_ops, dequeued_append, dequeued_append, dequeued_map_add, dequeued_drain_ops]
  rfl

theorem released_batch_ops (cfg : algo_config) (b : Nat) (reqs : List request_info)
    (ds : List (Obj × Nat)) : released (batch_ops cfg b reqs ds) = ds.map Prod.fst := by
  rw [batch_ops, released_append, released_append, released_map_add, released_drain_ops]
  rfl

theorem issued_batch_ops (cfg : algo_config) (b : Nat) (reqs : List request_info)
    (ds : List (Obj × Nat)) :
    issued (batch_ops cfg b reqs ds) = reqs.takeWhile (in_batch cfg b) := by
  rw [batch_ops, issued_append, issued_append, issued_map_add, issued_drain_ops]
  simp [issued]

theorem dequeue_calls_batch_ops (cfg : algo_config) (b : Nat) (reqs : List request_info)
    (ds : List (Obj × Nat)) : dequeue_calls (batch_ops cfg b reqs ds) = ds.length := by
  rw [batch_ops, dequeue_calls_append, dequeue_calls_append, dequeue_calls_map_add,
    dequeue_calls_drain_ops]
  simp [dequeue_calls]

theorem dequeued_expected_log (cfg : algo_config) (blocks : List (List (Obj × Nat))) :
    ∀ (b : Nat) (reqs : List request_info),
      dequeued (expected_log cfg b reqs blocks) = blocks.flatten := by
  induction blocks with
  | nil => intro b reqs; rfl
  | cons ds blocks ih =>
    intro b reqs
    rw [expected_log, dequeued_append, dequeued_batch_ops, ih, List.flatten_cons]

theorem released_expected_log (cfg : algo_config) (blocks : List (List (Obj × Nat))) :
    ∀ (b : Nat) (reqs : List request_info),
      released (expected_log cfg b reqs blocks) = blocks.flatten.map Prod.fst := by
  induction blocks with
  | nil => intro b reqs; rfl
  | cons ds blocks ih =>
    intro b reqs
    rw [expected_log, released_append, released_batch_ops, ih, List.flatten_cons,
      List.map_append]

theorem dequeue_calls_expected_log (cfg : algo_config) (blocks : List (List (Obj × Nat))) :
    ∀ (b : Nat) (reqs : List request_info),
      dequeue_calls (expected_log cfg b reqs blocks) = blocks.flatten.length := by
  induction blocks with
  | nil => intro b reqs; rfl
  | cons ds blocks ih =>
    intro b reqs
    rw [expected_log, dequeue_calls_append, dequeue_calls_batch_ops, ih, List.flatten_cons,
      List.length_append]

theorem sum_sizes_eq_sum_mod (acc : Nat) (hacc : acc < 2 ^ 32) (ds : List (Obj × Nat)) :
    sum_sizes acc ds = (acc + (ds.map Prod.snd).sum) % 2 ^ 32 := by
  induction ds generalizing acc with
  | nil =>
    simp only [sum_sizes, List.foldl_nil, List.map_nil, List.sum_nil, Nat.add_zero]
    exact (Nat.mod_eq_of_lt hacc).symm
  | cons d ds ih =>
    have h := ih ((acc + d.2) % 2 ^ 32) (Nat.mod_lt _ (by norm_num))
    simp only [sum_sizes, List.foldl_cons, List.map_cons, List.sum_cons] at h ⊢
    rw [h, Nat.mod_add_mod, Nat.add_assoc]

theorem length_flatten_of_all {α : Type} (n : Nat) (blocks : List (List α))
    (h : ∀ ds ∈ blocks, ds.length = n) : blocks.flatten.length = n * blocks.length := by
  induction blocks with
  | nil => simp
  | cons ds blocks ih =>
    have h1 : ds.length = n := h ds (List.mem_cons_self _ _)
    have h2 := ih (fun d hd => h d (List.mem_cons_of_mem _ hd))
    rw [List.flatten_cons, List.length_append, h1, h2, List.length_cons, Nat.mul_succ]
    omega

/-- The sample engine honours the engine contract when one call's batches
fit its ring, `waiting k` being the states with `k` batches in the ring. -/
theorem sample_engine_contract (cfg : algo_config)
    (hfit : cfg.ADMITTED_PER_BATCH ≤ 2 ^ ADMITTED_OUT_RING_LOG_SIZE) :
    engine_contract (sample_engine cfg.ADMITTED_PER_BATCH) cfg
      (fun k s => s.ring.length = k) where
  add_backlog := by intro s a b c hs; simpa [sample_engine] using hs
  flush_backlog := by intro s hs; simpa [sample_engine] using hs
  get_admissible_traffic := by
    intro s hs
    have hnil : s.ring = [] := List.length_eq_zero.mp hs
    simp only [sample_engine, hnil, List.nil_append, List.length_take, List.length_map,
      List.length_range]
    omega
  handle_spent_demands := by intro k s hs; simpa [sample_engine] using hs
  dequeue_and_put := by
    intro k s hs
    cases hr : s.ring with
    | nil => simp [hr] at hs
    | cons o ring =>
      refine ⟨o, by simp [sample_engine, hr], ?_⟩
      simp only [hr, List.length_cons, Nat.add_right_cancel_iff] at hs
      simpa [sample_engine, hr] using hs

end log_projections

/-! ## Requests sorted by timeslot -/

section sorted_requests
variable {σ Obj : Type}

theorem takeWhile_dropWhile_congr {α : Type} (p q : α → Bool) :
    ∀ l : List α, (∀ a ∈ l, p a = q a) →
      l.takeWhile p = l.takeWhile q ∧ l.dropWhile p = l.dropWhile q := by
  intro l
  induction l with
  | nil => intro _; simp
  | cons a l ih =>
    intro h
    have ha : p a = q a := h a (List.mem_cons_self _ _)
    obtain ⟨h1, h2⟩ := ih (fun x hx => h x (List.mem_cons_of_mem _ hx))
    simp only [List.takeWhile_cons, List.dropWhile_cons, ha, h1, h2, and_self]

theorem takeWhile_append_takeWhile {α : Type} (p q : α → Bool)
    (hpq : ∀ a, p a = true → q a = true) :
    ∀ l : List α,
      l.takeWhile p ++ (l.dropWhile p).takeWhile q = l.takeWhile q ∧
      (l.dropWhile p).dropWhile q = l.dropWhile q := by
  intro l
  induction l with
  | nil => simp
  | cons a l ih =>
    by_cases hp : p a = true
    · have hq := hpq a hp
      simp only [List.takeWhile_cons, List.dropWhile_cons, hp, hq, if_true, List.cons_append,
        ih.1, ih.2, and_self]
    · simp only [List.takeWhile_cons, List.dropWhile_cons, hp, if_false, List.nil_append,
        Bool.false_eq_true, and_self]

theorem dropWhile_index_below_ge (cfg : algo_config) (c : Nat) :
    ∀ l : List request_info,
      l.Pairwise (fun a b => batch_index cfg a ≤ batch_index cfg b) →
      ∀ r ∈ l.dropWhile (index_below cfg c), c ≤ batch_index cfg r := by
  intro l
  induction l with
  | nil => intro _ r hr; simp at hr
  | cons a l ih =>
    intro hs r hr
    rw [List.pairwise_cons] at hs
    by_cases ha : index_below cfg c a = true
    · rw [List.dropWhile_cons, if_pos ha] at hr
      exact ih hs.2 r hr
    · rw [List.dropWhile_cons, if_neg ha] at hr
      have hca : c ≤ batch_index cfg a := by
        simp only [index_below, decide_eq_true_eq] at ha
        omega
      rcases List.mem_cons.mp hr with h | h
      · rw [h]; exact hca
      · exact le_trans hca (hs.1 r h)

theorem takeWhile_eq_filter_of_sorted (cfg : algo_config) (c : Nat) :
    ∀ l : List request_info,
      l.Pairwise (fun a b => batch_index cfg a ≤ batch_index cfg b) →
      l.takeWhile (index_below cfg c) = l.filter (index_below cfg c) := by
  intro l
  induction l with
  | nil => intro _; rfl
  | cons a l ih =>
    intro hs
    rw [List.pairwise_cons] at hs
    by_cases ha : index_below cfg c a = true
    · rw [List.takeWhile_cons, if_pos ha, List.filter_cons, if_pos ha, ih hs.2]
    · rw [List.takeWhile_cons, if_neg ha, List.filter_cons, if_neg ha]
      symm
      rw [List.filter_eq_nil_iff]
      intro x hx
      have h1 := hs.1 x hx
      simp only [index_below, decide_eq_true_eq] at ha ⊢
      omega

theorem sorted_batch_index (cfg : algo_config) (l : List request_info)
    (hs : l.Pairwise (fun a b => a.timeslot ≤ b.timeslot)) :
    l.Pairwise (fun a b => batch_index cfg a ≤ batch_index cfg b) := by
  refine hs.imp ?_
  intro a b hab
  simp only [batch_index, Nat.shiftRight_eq_div_pow]
  exact Nat.div_le_div_right hab

theorem in_batch_eq_index_below (cfg : algo_config) (b : Nat)
    (hb : b < 65536 >>> cfg.BATCH_SHIFT) (r : request_info) (hr : b ≤ batch_index cfg r) :
    in_batch cfg b r = index_below cfg (b + 1) r := by
  simp only [in_batch, index_below, batch_index, Nat.mod_eq_of_lt hb] at hr ⊢
  by_cases h : r.timeslot >>> cfg.BATCH_SHIFT = b
  · simp [h]
  · have : ¬ r.timeslot >>> cfg.BATCH_SHIFT < b + 1 := by omega
    simp [h, this]

/-- For requests sorted by batch index, none before `b`, the iterations from
`b` on issue the requests whose batch index is below the end of the range. -/
theorem issued_expected_log (cfg : algo_config) (blocks : List (List (Obj × Nat))) :
    ∀ (b : Nat) (reqs : List request_info),
      b + blocks.length ≤ 65536 >>> cfg.BATCH_SHIFT →
      reqs.Pairwise (fun a b => batch_index cfg a ≤ batch_index cfg b) →
      (∀ r ∈ reqs, b ≤ batch_index cfg r) →
      issued (expected_log cfg b reqs blocks) =
          reqs.takeWhile (index_below cfg (b + blocks.length)) ∧
        remaining cfg blocks.length b reqs =
          reqs.dropWhile (index_below cfg (b + blocks.length)) := by
  induction blocks with
  | nil =>
    intro b reqs _ _ hge
    have h := takeWhile_dropWhile_congr (index_below cfg b) (fun _ => false) reqs (by
      intro a ha
      have := hge a ha
      simp only [index_below, decide_eq_false_iff_not]
      omega)
    have hd : reqs.dropWhile (fun _ => false) = reqs := by
      cases reqs <;> simp [List.dropWhile]
    have ht : reqs.takeWhile (fun _ => false) = [] := by
      cases reqs <;> simp [List.takeWhile]
    simp only [List.length_nil, Nat.add_zero, expected_log, remaining, h.1, h.2, hd, ht]
    exact ⟨rfl, trivial⟩
  | cons ds blocks ih =>
    intro b reqs hM hs hge
    have hb : b < 65536 >>> cfg.BATCH_SHIFT := by simp only [List.length_cons] at hM; omega
    have hc := takeWhile_dropWhile_congr (in_batch cfg b) (index_below cfg (b + 1)) reqs
      (fun a ha => in_batch_eq_index_below cfg b hb a (hge a ha))
    have hs1 : (reqs.dropWhile (index_below cfg (b + 1))).Pairwise
        (fun a b => batch_index cfg a ≤ batch_index cfg b) :=
      hs.sublist (List.dropWhile_sublist _)
    have hge1 := dropWhile_index_below_ge cfg (b + 1) reqs hs
    obtain ⟨h1, h2⟩ := ih (b + 1) (reqs.dropWhile (index_below cfg (b + 1)))
      (by simp only [List.length_cons] at hM; omega) hs1 hge1
    have hpq : ∀ a, index_below cfg (b + 1) a = true →
        index_below cfg (b + 1 + blocks.length) a = true := by
      intro a ha
      simp only [index_below, decide_eq_true_eq] at ha ⊢
      omega
    obtain ⟨h3, h4⟩ := takeWhile_append_takeWhile _ _ hpq reqs
    have e : b + (ds :: blocks).length = b + 1 + blocks.length := by
      simp only [List.length_cons]; omega
    rw [e]
    constructor
    · rw [expected_log, issued_append, issued_batch_ops, hc.1, hc.2, h1, h3]
    · rw [List.length_cons, remaining, hc.2, h2, h4]

theorem add_backlog_tag_expected_log (cfg : algo_config) (blocks : List (List (Obj × Nat))) :
    ∀ (b : Nat) (reqs : List request_info) (e : Nat × Op Obj),
      e ∈ expected_log cfg b reqs blocks →
      (b ≤ e.1 ∧ e.1 < b + blocks.length) ∧
        ∀ r, e.2 = Op.add_backlog r → in_batch cfg e.1 r = true := by
  induction blocks with
  | nil => intro b reqs e he; simp [expected_log] at he
  | cons ds blocks ih =>
    intro b reqs e he
    rw [expected_log, List.mem_append] at he
    rcases he with he | he
    · simp only [batch_ops, drain_ops, List.mem_append, List.mem_map, List.mem_cons,
        List.mem_flatMap, List.mem_singleton, List.not_mem_nil, or_false] at he
      rcases he with (⟨r, hr, rfl⟩ | h | h | h) | ⟨d, _, h | h⟩
      · refine ⟨⟨le_refl _, by simp⟩, ?_⟩
        intro r2 h2
        simp only [Op.add_backlog.injEq] at h2
        subst h2
        exact (List.mem_takeWhile_imp hr)
      all_goals
        subst h
        exact ⟨⟨le_refl _, by simp⟩, by intro r h2; simp at h2⟩
    · obtain ⟨⟨h1, h2⟩, h3⟩ := ih (b + 1) _ e he
      refine ⟨⟨by omega, by simp only [List.length_cons]; omega⟩, h3⟩

end sorted_requests

/-! ## Path-id encoding -/

theorem or_shiftLeft_decode (d p : Nat) (hd : d < 2 ^ 14) :
    (d ||| (p <<< 14)) = p * 2 ^ 14 + d ∧
    (d ||| (p <<< 14)) &&& 16383 = d ∧ (d ||| (p <<< 14)) >>> 14 = p := by
  have e : d ||| (p <<< 14) = p * 2 ^ 14 + d := by
    rw [Nat.or_comm, Nat.shiftLeft_eq, Nat.mul_comm, ← Nat.mul_add_lt_is_or hd]
  have hm : (16383 : Nat) = 2 ^ 14 - 1 := by norm_num
  refine ⟨e, ?_, ?_⟩
  · rw [e, hm, Nat.and_pow_two_sub_one_eq_mod]; omega
  · rw [e, Nat.shiftRight_eq_div_pow]; omega

/-- C2: `PATH_MASK` is `2 ^ PATH_SHIFT - 1`, and for a destination `d` within the
mask and a path id `p` below `NUM_PATHS` the encoded value
`d | (p << PATH_SHIFT)` fits in 16 bits, keeps `d` in its low-order bits and
yields `p` when shifted right by `PATH_SHIFT`. -/
theorem path_id_encoding_roundtrip (d p : Nat) (hd : d ≤ PATH_MASK) (hp : p < NUM_PATHS) :
    PATH_MASK = 2 ^ PATH_SHIFT - 1 ∧
    (d ||| (p <<< PATH_SHIFT)) < 2 ^ 16 ∧
    (d ||| (p <<< PATH_SHIFT)) &&& PATH_MASK = d ∧
    (d ||| (p <<< PATH_SHIFT)) >>> PATH_SHIFT = p := by
  unfold PATH_MASK at hd ⊢
  unfold NUM_PATHS at hp
  unfold PATH_SHIFT
  obtain ⟨e, h1, h2⟩ := or_shiftLeft_decode d p (by omega)
  refine ⟨by norm_num, ?_, h1, h2⟩
  rw [e]; omega

/-- C2 at a concrete input: destination 1234 on path 3. -/
theorem path_id_encoding_roundtrip_witness :
    PATH_MASK = 2 ^ PATH_SHIFT - 1 ∧
    (1234 ||| (3 <<< PATH_SHIFT)) < 2 ^ 16 ∧
    (1234 ||| (3 <<< PATH_SHIFT)) &&& PATH_MASK = 1234 ∧
    (1234 ||| (3 <<< PATH_SHIFT)) >>> PATH_SHIFT = 3 :=
  path_id_encoding_roundtrip 1234 3 (by decide) (by decide)

/-- C7: `warm_up_duration` and `duration - warm_up_duration` are multiples of
128; hence for a batch size `2 ^ BATCH_SHIFT` with `BATCH_SHIFT ≤ 6` both are a
whole and even number of batches. -/
theorem durations_even_number_of_batches (cfg : algo_config) (hS : cfg.BATCH_SHIFT ≤ 6)
    (hB : cfg.BATCH_SIZE = 2 ^ cfg.BATCH_SHIFT) :
    measured_duration = duration - warm_up_duration ∧
    warm_up_duration % 128 = 0 ∧ measured_duration % 128 = 0 ∧
    warm_up_duration % cfg.BATCH_SIZE = 0 ∧ measured_duration % cfg.BATCH_SIZE = 0 ∧
    warm_up_duration / cfg.BATCH_SIZE % 2 = 0 ∧ measured_duration / cfg.BATCH_SIZE % 2 = 0 := by
  have hw : warm_up_duration = 10112 := by decide
  have hm : measured_duration = 50048 := by decide
  refine ⟨by decide, ?_⟩
  rw [hw, hm, hB]
  generalize cfg.BATCH_SHIFT = s at hS
  interval_cases s <;> decide

/-- C7 at a concrete input: batches of 64 timeslots. -/
theorem durations_even_number_of_batches_witness :
    measured_duration = duration - warm_up_duration ∧
    warm_up_duration % 128 = 0 ∧ measured_duration % 128 = 0 ∧
    warm_up_duration % 64 = 0 ∧ measured_duration % 64 = 0 ∧
    warm_up_duration / 64 % 2 = 0 ∧ measured_duration / 64 % 2 = 0 :=
  durations_even_number_of_batches { BATCH_SHIFT := 6, BATCH_SIZE := 64, ADMITTED_PER_BATCH := 64 }
    (by decide) (by decide)

/-! ## Path capacity -/

theorem written_dst_decode (x p : Nat) :
    ((x &&& PATH_MASK) ||| (p <<< PATH_SHIFT)) &&& PATH_MASK = x &&& PATH_MASK ∧
    ((x &&& PATH_MASK) ||| (p <<< PATH_SHIFT)) >>> PATH_SHIFT = p := by
  have h : x &&& PATH_MASK < 2 ^ 14 := Nat.and_lt_two_pow x (by decide)
  obtain ⟨_, h1, h2⟩ := or_shiftLeft_decode (x &&& PATH_MASK) p h
  exact ⟨h1, h2⟩

theorem link_usage_append (topo : topology) (done : List admitted_edge) (e : admitted_edge)
    (s d p : Nat) :
    link_usage topo (done ++ [e]) s d p =
      link_usage topo done s d p + if crosses topo s d p e = true then 1 else 0 := by
  simp only [link_usage, List.countP_append, List.countP_cons, List.countP_nil, Nat.zero_add]

/-- The selector loop keeps its counters equal to the usage implied by the
entries already written, and within capacity as long as nothing is
overbooked. -/
theorem select_paths_loop_within_capacity (topo : topology) :
    ∀ (rest : List admitted_edge) (usage : Nat → Nat → Nat → Nat) (done : List admitted_edge)
      (overbooked : Bool),
      (∀ s d p, usage s d p = link_usage topo done s d p) →
      (overbooked = false → ∀ s d p, usage s d p ≤ topo.inter_rack_capacity) →
      (select_paths_loop topo rest usage done overbooked).overbooked = false →
      ∀ s d p, link_usage topo (select_paths_loop topo rest usage done overbooked).admitted
        s d p ≤ topo.inter_rack_capacity := by
  intro rest
  induction rest with
  | nil =>
    intro usage done overbooked hu hc hob s d p
    simp only [select_paths_loop] at hob ⊢
    rw [← hu]
    exact hc hob s d p
  | cons e rest ih =>
    intro usage done overbooked hu hc hob
    by_cases hsd : rack_of topo e.src = rack_of topo (e.dst &&& PATH_MASK)
    · simp only [select_paths_loop, hsd, if_true] at hob ⊢
      refine ih usage _ overbooked ?_ hc hob
      intro s d p
      rw [link_usage_append, hu s d p]
      have hno : crosses topo s d p
          { src := e.src, dst := (e.dst &&& PATH_MASK) ||| (0 <<< PATH_SHIFT) } = false := by
        simp only [crosses, (written_dst_decode e.dst 0).1, decide_eq_false_iff_not, not_and]
        intro h1 h2 h3
        exact absurd (h1 ▸ h2 ▸ hsd) h3
      rw [hno]
      simp
    · simp only [select_paths_loop, hsd, if_false] at hob ⊢
      refine ih _ _ _ ?_ ?_ hob
      · intro s d p
        rw [link_usage_append, ← hu s d p]
        obtain ⟨hd1, hd2⟩ := written_dst_decode e.dst
          (least_loaded (usage (rack_of topo e.src) (rack_of topo (e.dst &&& PATH_MASK))))
        by_cases hl : s = rack_of topo e.src ∧ d = rack_of topo (e.dst &&& PATH_MASK) ∧
            p = least_loaded (usage (rack_of topo e.src) (rack_of topo (e.dst &&& PATH_MASK)))
        · obtain ⟨h1, h2, h3⟩ := hl
          subst h1 h2 h3
          simp [crosses, hd1, hd2, hsd]
        · have hno : crosses topo s d p
              { src := e.src,
                dst := (e.dst &&& PATH_MASK) |||
                  (least_loaded (usage (rack_of topo e.src)
                    (rack_of topo (e.dst &&& PATH_MASK))) <<< PATH_SHIFT) } = false := by
            simp only [crosses, hd1, hd2, decide_eq_false_iff_not, not_and]
            intro h1 h2 _ h4
            exact hl ⟨h1.symm, h2.symm, h4.symm⟩
          rw [hno]
          simp [hl]
      · intro hob1 s d p
        simp only [Bool.or_eq_false_iff, decide_eq_false_iff_not, not_le] at hob1
        have hc1 := hc hob1.1
        split_ifs
        · exact hob1.2
        · exact hc1 s d p

/-- C1: when `select_paths` has assigned paths to a batch without overbooking
any entry, `paths_are_valid` returns true for the resulting batch and the same
rack count: no inter-rack link carries more entries than its capacity. -/
theorem select_paths_valid (topo : topology) (admitted : List admitted_edge) (num_racks : Nat)
    (h : (select_paths topo admitted num_racks).overbooked = false) :
    paths_are_valid topo (select_paths topo admitted num_racks).admitted num_racks = true := by
  have hcap := select_paths_loop_within_capacity topo admitted (fun _ _ _ => 0) [] false
    (by intro s d p; simp [link_usage]) (by intro _ s d p; exact Nat.zero_le _) h
  simp only [paths_are_valid, List.all_eq_true, decide_eq_true_eq]
  intro s _ d _ p _
  exact hcap s d p

/-- C1 at a concrete input: two flows between two racks and one flow inside a
rack, links of capacity 1. -/
theorem select_paths_valid_witness :
    (select_paths sample_topology sample_batch 2).overbooked = false ∧
    paths_are_valid sample_topology (select_paths sample_topology sample_batch 2).admitted 2
      = true :=
  ⟨by decide, select_paths_valid sample_topology sample_batch 2 (by decide)⟩

/-! ## Results on `run_experiment` -/

section calls_and_result
variable {σ Obj : Type}

/-- C3: `run_experiment` returns the sum, accumulated in 32 bits, of the `size`
fields of the batches it dequeues from the output ring.  The log of the run is
a record of calls really made on the engine (`replays`): each dequeue entry
holds the object `fp_ring_dequeue` returned and the value of its `size` field
in the engine state right after that call, and the calls lead from the initial
to the final engine state.  Every dequeue call yields a batch and there are
exactly `ADMITTED_PER_BATCH` of them for each batch index from
`start_time >> BATCH_SHIFT` up to, not including, `end_time >> BATCH_SHIFT`;
when that range of batch indices is empty the function returns 0 without
touching the engine.  For the sum the engine is assumed to honour
`engine_contract` and to start with no batch waiting, `ADMITTED_PER_BATCH` to
fit the `uint8_t` loop counter and `65536 >> BATCH_SHIFT` to be non-zero. -/
theorem run_experiment_returns_num_admitted (E : admissible_ops σ Obj) (cfg : algo_config)
    (fuel : Nat) (requests : List request_info) (start_time end_time : Nat) (status : σ) :
    (cfg.BATCH_SHIFT < 32 →
      end_time >>> cfg.BATCH_SHIFT ≤ start_time >>> cfg.BATCH_SHIFT →
      ∃ r, run_experiment E cfg fuel requests start_time end_time status = some r ∧
        r.num_admitted = 0 ∧ r.log = [] ∧ r.status = status) ∧
    (∀ waiting : Nat → σ → Prop, engine_contract E cfg waiting → waiting 0 status →
      cfg.ADMITTED_PER_BATCH ≤ 255 → cfg.BATCH_SHIFT ≤ 16 → cfg.ADMITTED_PER_BATCH < fuel →
      ∃ r, run_experiment E cfg fuel requests start_time end_time status = some r ∧
        replays E status r.log r.status ∧
        r.num_admitted = sum_sizes 0 (dequeued r.log) ∧
        r.num_admitted = ((dequeued r.log).map Prod.snd).sum % 2 ^ 32 ∧
        dequeue_calls r.log = (dequeued r.log).length ∧
        (dequeued r.log).length =
          cfg.ADMITTED_PER_BATCH *
            (end_time >>> cfg.BATCH_SHIFT - start_time >>> cfg.BATCH_SHIFT)) := by
  constructor
  · intro hS hle
    have h32 : ¬ 32 ≤ cfg.BATCH_SHIFT := by omega
    have h0 : end_time >>> cfg.BATCH_SHIFT - start_time >>> cfg.BATCH_SHIFT = 0 := by omega
    simp [run_experiment, h32, h0, batch_loop]
  · intro waiting hE hW hA hS hF
    obtain ⟨blocks, r, hlen, hall, hrun, hlog, hnum, _, _, _, hrep⟩ :=
      run_experiment_spec hE hA hS hF requests start_time end_time status hW
    refine ⟨r, hrun, hrep, ?_, ?_, ?_, ?_⟩
    · rw [hnum, hlog, dequeued_expected_log]
    · rw [hnum, hlog, dequeued_expected_log, sum_sizes_eq_sum_mod 0 (by norm_num), Nat.zero_add]
    · rw [hlog, dequeue_calls_expected_log, dequeued_expected_log]
    · rw [hlog, dequeued_expected_log, length_flatten_of_all _ blocks hall, hlen]

/-- C3 at concrete inputs: an empty range of batch indices, and a run of the
sample engine over three batches. -/
theorem run_experiment_returns_num_admitted_witness :
    (∃ r, run_experiment (sample_engine 2) sample_config 3 sample_requests 12 8 sample_status
        = some r ∧ r.num_admitted = 0 ∧ r.log = [] ∧ r.status = sample_status) ∧
    (∃ r, run_experiment (sample_engine 2) sample_config 3 sample_requests 0 12 sample_status
        = some r ∧
      replays (sample_engine 2) sample_status r.log r.status ∧
      r.num_admitted = sum_sizes 0 (dequeued r.log) ∧
      r.num_admitted = ((dequeued r.log).map Prod.snd).sum % 2 ^ 32 ∧
      dequeue_calls r.log = (dequeued r.log).length ∧
      (dequeued r.log).length = 2 * (12 >>> 2 - 0 >>> 2)) :=
  ⟨(run_experiment_returns_num_admitted (sample_engine 2) sample_config 3 sample_requests 12 8
      sample_status).1 (by decide) (by decide),
   (run_experiment_returns_num_admitted (sample_engine 2) sample_config 3 sample_requests 0 12
      sample_status).2 _ (sample_engine_contract sample_config (by decide)) rfl (by decide)
      (by decide) (by decide)⟩

/-- C5: the calls `run_experiment` makes are, for each batch index in turn, the
`add_backlog` calls of that batch, one `flush_backlog`, one
`get_admissible_traffic`, one `handle_spent_demands`, and then
`ADMITTED_PER_BATCH` times a dequeue from the output ring followed by the
release of the dequeued object to the pool.  These are calls really made on
the engine (`replays`): made in this order from the initial engine state they
give the final engine state, and each dequeue entry is what `fp_ring_dequeue`
returned at that point.  Hence as many objects are dequeued as are released,
and the released objects are the dequeued ones, one release per dequeue. -/
theorem run_experiment_call_sequence (E : admissible_ops σ Obj) (cfg : algo_config)
    (waiting : Nat → σ → Prop) (hE : engine_contract E cfg waiting)
    (hA : cfg.ADMITTED_PER_BATCH ≤ 255) (hS : cfg.BATCH_SHIFT ≤ 16)
    (fuel : Nat) (hF : cfg.ADMITTED_PER_BATCH < fuel)
    (requests : List request_info) (start_time end_time : Nat) (status : σ)
    (hW : waiting 0 status) :
    ∃ (blocks : List (List (Obj × Nat))) (r : experiment_result σ Obj),
      run_experiment E cfg fuel requests start_time end_time status = some r ∧
      blocks.length = end_time >>> cfg.BATCH_SHIFT - start_time >>> cfg.BATCH_SHIFT ∧
      (∀ ds ∈ blocks, ds.length = cfg.ADMITTED_PER_BATCH) ∧
      r.log = expected_log cfg (start_time >>> cfg.BATCH_SHIFT) requests blocks ∧
      replays E status r.log r.status ∧
      (dequeued r.log).length = (released r.log).length ∧
      dequeue_calls r.log = (dequeued r.log).length ∧
      released r.log = (dequeued r.log).map Prod.fst := by
  obtain ⟨blocks, r, hlen, hall, hrun, hlog, _, _, _, _, hrep⟩ :=
    run_experiment_spec hE hA hS hF requests start_time end_time status hW
  refine ⟨blocks, r, hrun, hlen, hall, hlog, hrep, ?_, ?_, ?_⟩
  · rw [hlog, dequeued_expected_log, released_expected_log, List.length_map]
  · rw [hlog, dequeue_calls_expected_log, dequeued_expected_log]
  · rw [hlog, dequeued_expected_log, released_expected_log]

/-- C5 at a concrete input: the sample engine over three batches. -/
theorem run_experiment_call_sequence_witness :
    ∃ (blocks : List (List (Nat × Nat))) (r : experiment_result sample_state Nat),
      run_experiment (sample_engine 2) sample_config 3 sample_requests 0 12 sample_status
        = some r ∧
      blocks.length = 12 >>> 2 - 0 >>> 2 ∧
      (∀ ds ∈ blocks, ds.length = 2) ∧
      r.log = expected_log sample_config (0 >>> 2) sample_requests blocks ∧
      replays (sample_engine 2) sample_status r.log r.status ∧
      (dequeued r.log).length = (released r.log).length ∧
      dequeue_calls r.log = (dequeued r.log).length ∧
      released r.log = (dequeued r.log).map Prod.fst :=
  run_experiment_call_sequence (sample_engine 2) sample_config _
    (sample_engine_contract sample_config (by decide)) (by decide) (by decide) 3 (by decide)
    sample_requests 0 12 sample_status rfl

end calls_and_result

section issued_requests
variable {σ Obj : Type}

theorem shiftRight_mono (s : Nat) {a b : Nat} (h : a ≤ b) : a >>> s ≤ b >>> s := by
  simp only [Nat.shiftRight_eq_div_pow]
  exact Nat.div_le_div_right h

theorem index_below_duration (cfg : algo_config) (hS : cfg.BATCH_SHIFT ≤ 8) (q : request_info) :
    index_below cfg (duration >>> cfg.BATCH_SHIFT) q = decide (q.timeslot < duration) := by
  have hd : 2 ^ cfg.BATCH_SHIFT ∣ duration := by
    have h1 : 2 ^ cfg.BATCH_SHIFT ∣ 2 ^ 8 := Nat.pow_dvd_pow 2 hS
    have h2 : (2 : Nat) ^ 8 ∣ duration := by decide
    exact Nat.dvd_trans h1 h2
  have hpos : 0 < 2 ^ cfg.BATCH_SHIFT := Nat.pos_pow_of_pos _ (by norm_num)
  simp only [index_below, batch_index, Nat.shiftRight_eq_div_pow]
  congr 1
  rw [Nat.div_lt_iff_lt_mul hpos, Nat.div_mul_cancel hd]

/-- C4: for requests sorted by timeslot, all at or after `start_time`, and
`start_time ≤ end_time ≤ 65536`, `run_experiment` passes to `add_backlog`
exactly the requests whose batch index is below `end_time >> BATCH_SHIFT`, once
each and in sequence order, each in the iteration `b` equal to its batch index,
and `*next_request` is the rest of the sequence, starting at the first request
not issued.  The log is a record of calls really made on the engine
(`replays`).  The warm-up call over `[0, warm_up_duration)` followed by the
measured call from the returned `next_request` and engine state issues exactly
the requests whose batch index is below `duration >> BATCH_SHIFT`, once each;
with `duration` a whole number of batches, as `main` keeps it (lines 163-165),
that is for `BATCH_SHIFT ≤ 8`, these are the requests with timeslot below
`duration`. -/
theorem run_experiment_issues_requests (E : admissible_ops σ Obj) (cfg : algo_config)
    (waiting : Nat → σ → Prop) (hE : engine_contract E cfg waiting)
    (hA : cfg.ADMITTED_PER_BATCH ≤ 255) (hS : cfg.BATCH_SHIFT ≤ 16)
    (fuel : Nat) (hF : cfg.ADMITTED_PER_BATCH < fuel)
    (requests : List request_info) (start_time end_time : Nat) (status : σ)
    (hW : waiting 0 status)
    (hsorted : requests.Pairwise (fun a b => a.timeslot ≤ b.timeslot))
    (hge : ∀ q ∈ requests, start_time ≤ q.timeslot)
    (h1 : start_time ≤ end_time) (h2 : end_time ≤ 65536) :
    ∃ r1, run_experiment E cfg fuel requests start_time end_time status = some r1 ∧
      replays E status r1.log r1.status ∧
      issued r1.log =
        requests.filter (fun q => decide (batch_index cfg q < end_time >>> cfg.BATCH_SHIFT)) ∧
      (∀ b q, (b, Op.add_backlog q) ∈ r1.log → batch_index cfg q = b) ∧
      requests = issued r1.log ++ r1.next_request ∧
      (∀ q ∈ r1.next_request, end_time >>> cfg.BATCH_SHIFT ≤ batch_index cfg q) ∧
      (start_time = 0 → end_time = warm_up_duration →
        ∃ r2, run_experiment E cfg fuel r1.next_request warm_up_duration duration r1.status
            = some r2 ∧
          replays E r1.status r2.log r2.status ∧
          issued r1.log ++ issued r2.log =
            requests.filter
              (fun q => decide (batch_index cfg q < duration >>> cfg.BATCH_SHIFT)) ∧
          (cfg.BATCH_SHIFT ≤ 8 →
            issued r1.log ++ issued r2.log =
              requests.filter (fun q => decide (q.timeslot < duration)))) := by
  have hsi := sorted_batch_index cfg requests hsorted
  have hsb : start_time >>> cfg.BATCH_SHIFT ≤ end_time >>> cfg.BATCH_SHIFT :=
    shiftRight_mono _ h1
  have heM : end_time >>> cfg.BATCH_SHIFT ≤ 65536 >>> cfg.BATCH_SHIFT := shiftRight_mono _ h2
  obtain ⟨blocks, r1, hlen, _, hrun, hlog, _, hnext, _, hW1, hrep1⟩ :=
    run_experiment_spec hE hA hS hF requests start_time end_time status hW
  have hsum : start_time >>> cfg.BATCH_SHIFT + blocks.length = end_time >>> cfg.BATCH_SHIFT := by
    omega
  obtain ⟨hi, hr⟩ := issued_expected_log cfg blocks (start_time >>> cfg.BATCH_SHIFT) requests
    (by omega) hsi (fun q hq => shiftRight_mono _ (hge q hq))
  rw [hsum] at hi hr
  rw [← hlen] at hnext
  have hissued : issued r1.log =
      requests.takeWhile (index_below cfg (end_time >>> cfg.BATCH_SHIFT)) := by
    rw [hlog, hi]
  have hnext1 : r1.next_request =
      requests.dropWhile (index_below cfg (end_time >>> cfg.BATCH_SHIFT)) := by
    rw [hnext, hr]
  refine ⟨r1, hrun, hrep1, ?_, ?_, ?_, ?_, ?_⟩
  · rw [hissued, takeWhile_eq_filter_of_sorted cfg _ requests hsi]
    rfl
  · intro b q hmem
    rw [hlog] at hmem
    obtain ⟨⟨_, hb2⟩, hin⟩ := add_backlog_tag_expected_log cfg blocks _ _ _ hmem
    have hq := hin q rfl
    simp only [in_batch, decide_eq_true_eq] at hq
    have hbM : b < 65536 >>> cfg.BATCH_SHIFT := by simp only at hb2; omega
    rw [Nat.mod_eq_of_lt hbM] at hq
    exact hq
  · rw [hissued, hnext1, List.takeWhile_append_dropWhile]
  · rw [hnext1]
    exact dropWhile_index_below_ge cfg _ requests hsi
  · intro h0 hw
    subst h0 hw
    have hwd : warm_up_duration ≤ duration := by decide
    have hd : duration ≤ 65536 := by decide
    have hwb := shiftRight_mono cfg.BATCH_SHIFT hwd
    have hdM := shiftRight_mono cfg.BATCH_SHIFT hd
    obtain ⟨blocks2, r2, hlen2, _, hrun2, hlog2, _, _, _, _, hrep2⟩ :=
      run_experiment_spec hE hA hS hF r1.next_request warm_up_duration duration r1.status hW1
    have hs2 : r1.next_request.Pairwise
        (fun a b => batch_index cfg a ≤ batch_index cfg b) := by
      rw [hnext1]; exact hsi.sublist (List.dropWhile_sublist _)
    have hge2 : ∀ q ∈ r1.next_request, warm_up_duration >>> cfg.BATCH_SHIFT ≤ batch_index cfg q := by
      rw [hnext1]; exact dropWhile_index_below_ge cfg _ requests hsi
    have hsum2 : warm_up_duration >>> cfg.BATCH_SHIFT + blocks2.length =
        duration >>> cfg.BATCH_SHIFT := by omega
    obtain ⟨hi2, _⟩ := issued_expected_log cfg blocks2 (warm_up_duration >>> cfg.BATCH_SHIFT)
      r1.next_request (by omega) hs2 hge2
    rw [hsum2] at hi2
    have hpq : ∀ a, index_below cfg (warm_up_duration >>> cfg.BATCH_SHIFT) a = true →
        index_below cfg (duration >>> cfg.BATCH_SHIFT) a = true := by
      intro a ha
      simp only [index_below, decide_eq_true_eq] at ha ⊢
      omega
    have hall : issued r1.log ++ issued r2.log =
        requests.filter (index_below cfg (duration >>> cfg.BATCH_SHIFT)) := by
      rw [hlog2, hi2, hissued, hnext1, (takeWhile_append_takeWhile _ _ hpq requests).1,
        takeWhile_eq_filter_of_sorted cfg _ requests hsi]
    refine ⟨r2, hrun2, hrep2, ?_, ?_⟩
    · rw [hall]; rfl
    · intro h8
      rw [hall]
      congr 1
      funext q
      exact index_below_duration cfg h8 q

/-- C4 at a concrete input: both calls of `main` on a request sequence that
spans them, with batches of four timeslots.  The warm-up call issues the first
two requests, the measured call the next three, and the request at timeslot
`duration` is left. -/
theorem run_experiment_issues_requests_witness :
    ∃ r1 r2,
      run_experiment (sample_engine 2) sample_config 3 two_phase_requests 0 warm_up_duration
        sample_status = some r1 ∧
      run_experiment (sample_engine 2) sample_config 3 r1.next_request warm_up_duration
        duration r1.status = some r2 ∧
      replays (sample_engine 2) sample_status r1.log r1.status ∧
      replays (sample_engine 2) r1.status r2.log r2.status ∧
      issued r1.log = two_phase_requests.take 2 ∧
      (∀ b q, (b, Op.add_backlog q) ∈ r1.log → batch_index sample_config q = b) ∧
      two_phase_requests = issued r1.log ++ r1.next_request ∧
      issued r2.log = (two_phase_requests.drop 2).take 3 ∧
      issued r1.log ++ issued r2.log =
        two_phase_requests.filter (fun q => decide (q.timeslot < duration)) := by
  obtain ⟨r1, hrun1, hrep1, hi1, htag, hsplit, _, hmain⟩ :=
    run_experiment_issues_requests (sample_engine 2) sample_config _
      (sample_engine_contract sample_config (by decide)) (by decide) (by decide) 3 (by decide)
      two_phase_requests 0 warm_up_duration sample_status rfl (by decide) (by decide)
      (by decide) (by decide)
  obtain ⟨r2, hrun2, hrep2, _, hall⟩ := hmain rfl rfl
  have hall8 := hall (by decide)
  have hi1v : issued r1.log = two_phase_requests.take 2 := by rw [hi1]; decide
  have hallv : issued r1.log ++ issued r2.log = two_phase_requests.take 5 := by
    rw [hall8]; decide
  refine ⟨r1, r2, hrun1, hrun2, hrep1, hrep2, hi1v, htag, hsplit, ?_, hall8⟩
  rw [hi1v] at hallv
  have h5 : two_phase_requests.take 5 =
      two_phase_requests.take 2 ++ (two_phase_requests.drop 2).take 3 := by decide
  rw [h5] at hallv
  exact List.append_cancel_left hallv

/-- A run of the sample engine over three batches of four timeslots: three
packets admitted, the request at timeslot 13 left at `*next_request`, and the
slots 0, 1 and 2 of `per_batch_times` written. -/
theorem sample_run_value :
    (run_experiment (sample_engine 2) sample_config 3 sample_requests 0 12 sample_status).map
        (fun r => (r.num_admitted, r.next_request, r.times_written)) =
      some (3, [{ src := 1, dst := 2, backlog := 3, timeslot := 13 }], [0, 1, 2]) := by
  rfl

end issued_requests

/-! ## Results on `main` -/

theorem init_resources_head (num_bin_rings : Nat) (created : resource → Bool)
    (bt : benchmark_type) :
    ∃ rest, (init_resources num_bin_rings created bt).1 =
      main_event.create resource.q_bin :: rest := by
  unfold init_resources
  simp only
  split_ifs <;> simp

theorem batch_count_arith (s : Nat) (hs : s ≤ 7) :
    warm_up_duration >>> s - 0 >>> s ≤ measured_duration / 2 ^ s % 2 ^ 16 ∧
    duration >>> s - warm_up_duration >>> s ≤ measured_duration / 2 ^ s % 2 ^ 16 ∧
    measured_duration / 2 ^ s % 2 ^ 16 = measured_duration / 2 ^ s := by
  have hw : warm_up_duration = 10112 := by decide
  have hd : duration = 60160 := by decide
  have hm : measured_duration = 50048 := by decide
  rw [hw, hm, hd]
  interval_cases s <;> decide

section time_buffer
variable {σ Obj : Type}

/-- C8: for `BATCH_SHIFT ≤ 7` and `BATCH_SIZE = 2 ^ BATCH_SHIFT`, in the warm-up
call and in the measured call that `main` makes to `run_experiment` every index
written into `per_batch_times` is below `num_batches`, and the `uint16_t`
variable `num_batches` holds `(duration - warm_up_duration) / BATCH_SIZE`
without truncation. -/
theorem per_batch_times_indices_in_bounds (E : admissible_ops σ Obj) (cfg : algo_config)
    (waiting : Nat → σ → Prop) (hE : engine_contract E cfg waiting)
    (hA : cfg.ADMITTED_PER_BATCH ≤ 255) (hS : cfg.BATCH_SHIFT ≤ 7)
    (hB : cfg.BATCH_SIZE = 2 ^ cfg.BATCH_SHIFT)
    (fuel : Nat) (hF : cfg.ADMITTED_PER_BATCH < fuel)
    (requests : List request_info) (status : σ) (hW : waiting 0 status) :
    ∃ r1 r2,
      run_experiment E cfg fuel requests 0 warm_up_duration status = some r1 ∧
      run_experiment E cfg fuel r1.next_request warm_up_duration duration r1.status = some r2 ∧
      (∀ i ∈ r1.times_written, i < num_batches cfg) ∧
      (∀ i ∈ r2.times_written, i < num_batches cfg) ∧
      num_batches cfg = (duration - warm_up_duration) / cfg.BATCH_SIZE := by
  have hS16 : cfg.BATCH_SHIFT ≤ 16 := by omega
  obtain ⟨_, r1, _, _, hrun1, _, _, _, ht1, hW1, _⟩ :=
    run_experiment_spec hE hA hS16 hF requests 0 warm_up_duration status hW
  obtain ⟨_, r2, _, _, hrun2, _, _, _, ht2, _, _⟩ :=
    run_experiment_spec hE hA hS16 hF r1.next_request warm_up_duration duration r1.status hW1
  obtain ⟨h1, h2, h3⟩ := batch_count_arith cfg.BATCH_SHIFT hS
  refine ⟨r1, r2, hrun1, hrun2, ?_, ?_, ?_⟩
  · intro i hi
    rw [ht1, List.mem_range] at hi
    rw [num_batches, hB]
    omega
  · intro i hi
    rw [ht2, List.mem_range] at hi
    rw [num_batches, hB]
    omega
  · rw [num_batches, hB, h3]
    rfl

/-- C8 at a concrete input: the sample engine with batches of four timeslots. -/
theorem per_batch_times_indices_in_bounds_witness :
    ∃ r1 r2,
      run_experiment (sample_engine 2) sample_config 3 sample_requests 0 warm_up_duration
        sample_status = some r1 ∧
      run_experiment (sample_engine 2) sample_config 3 r1.next_request warm_up_duration duration
        r1.status = some r2 ∧
      (∀ i ∈ r1.times_written, i < num_batches sample_config) ∧
      (∀ i ∈ r2.times_written, i < num_batches sample_config) ∧
      num_batches sample_config = (duration - warm_up_duration) / 4 :=
  per_batch_times_indices_in_bounds (sample_engine 2) sample_config _
    (sample_engine_contract sample_config (by decide)) (by decide) (by decide) (by decide) 3
    (by decide) sample_requests sample_status rfl

end time_buffer

/-- C6: with a valid invocation, the start-up part of `main` ends in `exit(-1)`
without having created any queue, pool or engine state exactly when
`ADMITTED_TRAFFIC_MEMPOOL_SIZE < duration - warm_up_duration` or
`2 ^ ADMITTED_OUT_RING_LOG_SIZE ≤ duration - warm_up_duration`; with the
constants of the source (10112, 60160, 51000, 16) neither holds and `main`
goes on to create its first queue. -/
theorem sizing_check_is_fatal (mempool_size ring_log_size warm_up dur num_bin_rings : Nat)
    (created : resource → Bool) (argc : Nat) (type : Int)
    (hargc : argc = 2) (htype : type = 0 ∨ type = 1 ∨ type = 2)
    (hp : mempool_size < 2 ^ 31) (hr : ring_log_size ≤ 30)
    (hw : warm_up ≤ dur) (hd : dur < 2 ^ 32) :
    (((main_startup mempool_size ring_log_size warm_up dur num_bin_rings created argc type).2
          = main_outcome.exited (-1) ∧
        ∀ e ∈ (main_startup mempool_size ring_log_size warm_up dur num_bin_rings created argc
          type).1, e.is_create = false) ↔
      (mempool_size < dur - warm_up ∨ 2 ^ ring_log_size ≤ dur - warm_up)) ∧
    (warm_up_duration = 10112 ∧ duration = 60160 ∧
      ADMITTED_TRAFFIC_MEMPOOL_SIZE = 51000 ∧ ADMITTED_OUT_RING_LOG_SIZE = 16) ∧
    ¬ (ADMITTED_TRAFFIC_MEMPOOL_SIZE < duration - warm_up_duration) ∧
    ¬ (2 ^ ADMITTED_OUT_RING_LOG_SIZE ≤ duration - warm_up_duration) ∧
    ∃ rest, (main num_bin_rings created argc type).1 =
      main_event.create resource.q_bin :: rest := by
  have hbt : ∃ bt, select_benchmark_type type = some bt := by
    rcases htype with h | h | h <;> subst h <;> simp [select_benchmark_type]
  obtain ⟨bt, hbt⟩ := hbt
  have hm : (dur + 2 ^ 32 - warm_up) % 2 ^ 32 = dur - warm_up := by
    have e : dur + 2 ^ 32 - warm_up = (dur - warm_up) + 2 ^ 32 := by omega
    rw [e, Nat.add_mod_right, Nat.mod_eq_of_lt (by omega)]
  have hpm : mempool_size % 2 ^ 32 = mempool_size := Nat.mod_eq_of_lt (by omega)
  have hrl : (1 <<< ring_log_size) % 2 ^ 32 = 2 ^ ring_log_size := by
    rw [Nat.shiftLeft_eq, Nat.one_mul]
    apply Nat.mod_eq_of_lt
    calc 2 ^ ring_log_size ≤ 2 ^ 30 := Nat.pow_le_pow_right (by norm_num) hr
      _ < 2 ^ 32 := by norm_num
  refine ⟨?_, by decide, by decide, by decide, ?_⟩
  · subst hargc
    simp only [main_startup, ne_eq, not_true_eq_false, if_false, hbt, hm, hpm, hrl]
    by_cases h1 : mempool_size < dur - warm_up
    · simp [h1, main_event.is_create]
    · by_cases h2 : 2 ^ ring_log_size ≤ dur - warm_up
      · simp [h1, h2, main_event.is_create]
      · simp only [h1, h2, if_false, or_self, iff_false, not_and]
        intro _ hno
        obtain ⟨rest, hrest⟩ := init_resources_head num_bin_rings created bt
        have := hno (main_event.create resource.q_bin) (by rw [hrest]; simp)
        simp [main_event.is_create] at this
  · subst hargc
    have h1 : ¬ (ADMITTED_TRAFFIC_MEMPOOL_SIZE % 2 ^ 32 <
        (duration + 2 ^ 32 - warm_up_duration) % 2 ^ 32) := by decide
    have h2 : ¬ ((1 <<< ADMITTED_OUT_RING_LOG_SIZE) % 2 ^ 32 ≤
        (duration + 2 ^ 32 - warm_up_duration) % 2 ^ 32) := by decide
    simp only [main, main_startup, ne_eq, not_true_eq_false, if_false, hbt, h1, h2]
    exact init_resources_head num_bin_rings created bt

/-- C6 at a concrete input: a pool of 100 elements for a measured duration of
200 timeslots, benchmark type 1. -/
theorem sizing_check_is_fatal_witness :
    (((main_startup 100 16 0 200 1 (fun _ => true) 2 1).2 = main_outcome.exited (-1) ∧
        ∀ e ∈ (main_startup 100 16 0 200 1 (fun _ => true) 2 1).1, e.is_create = false) ↔
      (100 < 200 - 0 ∨ 2 ^ 16 ≤ 200 - 0)) ∧
    (warm_up_duration = 10112 ∧ duration = 60160 ∧
      ADMITTED_TRAFFIC_MEMPOOL_SIZE = 51000 ∧ ADMITTED_OUT_RING_LOG_SIZE = 16) ∧
    ¬ (ADMITTED_TRAFFIC_MEMPOOL_SIZE < duration - warm_up_duration) ∧
    ¬ (2 ^ ADMITTED_OUT_RING_LOG_SIZE ≤ duration - warm_up_duration) ∧
    ∃ rest, (main 1 (fun _ => true) 2 1).1 = main_event.create resource.q_bin :: rest :=
  sizing_check_is_fatal 100 16 0 200 1 (fun _ => true) 2 1 rfl (by decide) (by decide)
    (by decide) (by decide) (by decide)

end Fastpass
